import Mathlib

/-!
Verification of the checkpointed parallel cell-fill engine
(`aimlv2_json.py`, with the row-padding discovery variant from
`server/python/aimlv2_csv_optimized.py`).

The grid is a list of headers plus a list of records (association lists
from header name to an optional string cell value, `none` standing for a
JSON `null`).  The checkpoint ledger is the insertion-ordered list of dict
keys `"{row}-{col}"`.  String-returning Python primitives (`str.strip`,
`str.split`, `int(...)`, f-string formatting of integers) are embedded
over `List Char` so every definition evaluates inside the kernel.
-/

/-- Python truthiness of an optional string value: `None` and `""` are falsy. -/
def truthy : Option String → Bool
  | none => false
  | some s => decide (s ≠ "")

/-- Python `str.strip()`: drop whitespace from both ends of a string. -/
def pyStrip (s : String) : String :=
  ((s.data.dropWhile Char.isWhitespace).reverse.dropWhile Char.isWhitespace).reverse.asString

/-- A data record (`Dict[str, str]` holding possibly-null JSON values):
an association list from header name to cell value, in insertion order. -/
abbrev Record := List (String × Option String)

/-- Python `record.get(header, "")`: the stored value when the key is
present (possibly a JSON `null`), the default `""` otherwise. -/
def Record.get (r : Record) (h : String) : Option String :=
  match r.find? (fun p => p.1 == h) with
  | some p => p.2
  | none => some ""

/-- Python `record[header] = text`: replace the value of an existing key in
place, or append a fresh binding at the end. -/
def Record.set (r : Record) (h : String) (v : Option String) : Record :=
  if r.any (fun p => p.1 == h) then
    r.map (fun p => if p.1 == h then (p.1, v) else p)
  else r ++ [(h, v)]

/-- The checkpoint ledger: the keys of the `Dict[str, bool]`, in insertion
order (every stored value is `True`, so only the key set matters). -/
abbrev Checkpoint := List String

/-- Python `checkpoint[key] = True`: a dict insert keeps an existing key in
place and appends a new one. -/
def dictInsert (cp : Checkpoint) (k : String) : Checkpoint :=
  if k ∈ cp then cp else cp ++ [k]

/-- Python `s.split(sep)` for a one-character separator: keeps empty
fragments, `"".split(sep) = [""]`. -/
def pySplitChar (sep : Char) : List Char → List (List Char)
  | [] => [[]]
  | c :: cs =>
    if c = sep then [] :: pySplitChar sep cs
    else
      match pySplitChar sep cs with
      | [] => [[c]]
      | p :: ps => (c :: p) :: ps

/-- Numeric value of a decimal digit character. -/
def digitVal (c : Char) : Nat := c.toNat - 48

/-- Decimal value of a most-significant-first digit list. -/
def digitsVal (cs : List Char) : Nat := cs.foldl (fun a c => 10 * a + digitVal c) 0

/-- Parse a non-empty all-digit character list. -/
def parseDigits (cs : List Char) : Option Nat :=
  if cs ≠ [] ∧ cs.all Char.isDigit then some (digitsVal cs) else none

/-- Whitespace stripping on a character list (what `int(...)` does first). -/
def trimChars (cs : List Char) : List Char :=
  ((cs.dropWhile Char.isWhitespace).reverse.dropWhile Char.isWhitespace).reverse

/-- Python `int(s)`: strip whitespace, optional sign, then decimal digits;
`none` models the `ValueError` on anything else (digit-group underscores
and non-ASCII digits are not modelled). -/
def pyIntChars (cs : List Char) : Option Int :=
  match trimChars cs with
  | [] => none
  | c :: rest =>
    if c = '-' then Option.map (fun n : Nat => -(n : Int)) (parseDigits rest)
    else if c = '+' then Option.map (fun n : Nat => (n : Int)) (parseDigits rest)
    else Option.map (fun n : Nat => (n : Int)) (parseDigits (c :: rest))

/-- `row_idx, col_idx = map(int, key.split('-'))`, with the `ValueError`
from a failed unpack or a failed `int` turned into `none`. -/
def parseKey (key : String) : Option (Int × Int) :=
  match pySplitChar '-' key.data with
  | [a, b] =>
    match pyIntChars a, pyIntChars b with
    | some r, some c => some (r, c)
    | _, _ => none
  | _ => none

/-- The f-string cell address `f"{row}-{col}"` on Python ints. -/
def keyOfInt (row col : Int) : String := toString row ++ "-" ++ toString col

/-- The f-string cell address on natural row/column numbers. -/
def keyOfNat (row col : Nat) : String := toString row ++ "-" ++ toString col

/-- Reference decimal digit expansion, most significant digit first. -/
def digitsRec (n : Nat) : List Char :=
  if _h : n < 10 then [Nat.digitChar n]
  else digitsRec (n / 10) ++ [Nat.digitChar (n % 10)]
termination_by n
decreasing_by exact Nat.div_lt_self (by omega) (by omega)

theorem digitsRec_lt (n : Nat) (h : n < 10) : digitsRec n = [Nat.digitChar n] := by
  rw [digitsRec, dif_pos h]

theorem digitsRec_ge (n : Nat) (h : ¬ n < 10) :
    digitsRec n = digitsRec (n / 10) ++ [Nat.digitChar (n % 10)] := by
  conv_lhs => rw [digitsRec]
  rw [dif_neg h]

theorem digitChar_isDigit (d : Nat) (h : d < 10) : (Nat.digitChar d).isDigit = true := by
  interval_cases d <;> decide

theorem digitVal_digitChar (d : Nat) (h : d < 10) : digitVal (Nat.digitChar d) = d := by
  interval_cases d <;> decide

theorem digitsRec_ne_nil (n : Nat) : digitsRec n ≠ [] := by
  rw [digitsRec]
  split <;> simp

theorem digitsRec_all_digits (n : Nat) : ∀ c ∈ digitsRec n, c.isDigit = true := by
  induction n using Nat.strong_induction_on with
  | _ n ih =>
    rw [digitsRec]
    split
    · intro c hc
      simp only [List.mem_singleton] at hc
      subst hc
      exact digitChar_isDigit n (by omega)
    · intro c hc
      rw [List.mem_append] at hc
      rcases hc with h | h
      · exact ih (n / 10) (Nat.div_lt_self (by omega) (by omega)) c h
      · simp only [List.mem_singleton] at h
        subst h
        exact digitChar_isDigit (n % 10) (Nat.mod_lt _ (by omega))

theorem foldl_digitsRec (n : Nat) :
    ∀ a : Nat, List.foldl (fun a c => 10 * a + digitVal c) a (digitsRec n) =
      a * 10 ^ (digitsRec n).length + n := by
  induction n using Nat.strong_induction_on with
  | _ n ih =>
    intro a
    rw [digitsRec]
    split
    · next h =>
      simp [List.foldl, digitVal_digitChar n h]
      ring
    · next h =>
      rw [List.foldl_append, ih (n / 10) (Nat.div_lt_self (by omega) (by omega)) a]
      simp only [List.foldl, List.length_append, List.length_singleton]
      rw [digitVal_digitChar (n % 10) (Nat.mod_lt _ (by omega))]
      have hmod := Nat.div_add_mod n 10
      rw [pow_succ]
      ring_nf
      omega

theorem digitsVal_digitsRec (n : Nat) : digitsVal (digitsRec n) = n := by
  have := foldl_digitsRec n 0
  simpa [digitsVal] using this

theorem parseDigits_digitsRec (n : Nat) : parseDigits (digitsRec n) = some n := by
  rw [parseDigits, if_pos]
  · rw [digitsVal_digitsRec]
  · exact ⟨digitsRec_ne_nil n, List.all_eq_true.2 (digitsRec_all_digits n)⟩

theorem dropWhile_of_none {α : Type} (p : α → Bool) (l : List α)
    (h : ∀ c ∈ l, p c = false) : l.dropWhile p = l := by
  cases l with
  | nil => rfl
  | cons a l =>
    rw [List.dropWhile_cons, h a (List.mem_cons_self a l)]
    simp

theorem isDigit_not_isWhitespace (c : Char) (h : c.isDigit = true) :
    c.isWhitespace = false := by
  by_contra hw
  simp only [Bool.not_eq_false] at hw
  simp [Char.isWhitespace] at hw
  simp [Char.isDigit] at h
  rcases hw with ((h1 | h1) | h1) | h1 <;> (subst h1; revert h; decide)

theorem trimChars_of_digits (cs : List Char) (h : ∀ c ∈ cs, c.isDigit = true) :
    trimChars cs = cs := by
  rw [trimChars, dropWhile_of_none _ cs
    (fun c hc => isDigit_not_isWhitespace c (h c hc))]
  rw [dropWhile_of_none _ cs.reverse
    (fun c hc => isDigit_not_isWhitespace c (h c (List.mem_reverse.1 hc)))]
  exact List.reverse_reverse cs

theorem isDigit_ne_dash (c : Char) (h : c.isDigit = true) : c ≠ '-' := by
  intro h1
  subst h1
  revert h
  decide

theorem isDigit_ne_plus (c : Char) (h : c.isDigit = true) : c ≠ '+' := by
  intro h1
  subst h1
  revert h
  decide

theorem pyIntChars_digitsRec (n : Nat) : pyIntChars (digitsRec n) = some (n : Int) := by
  obtain ⟨c, rest, hcons⟩ : ∃ c rest, digitsRec n = c :: rest := by
    cases h : digitsRec n with
    | nil => exact absurd h (digitsRec_ne_nil n)
    | cons c rest => exact ⟨c, rest, rfl⟩
  have hdig := digitsRec_all_digits n
  have hc : c.isDigit = true := hdig c (by rw [hcons]; exact List.mem_cons_self c rest)
  rw [pyIntChars, trimChars_of_digits _ hdig, hcons]
  simp only [if_neg (isDigit_ne_dash c hc), if_neg (isDigit_ne_plus c hc), ← hcons,
    parseDigits_digitsRec, Option.map]

theorem pySplitChar_of_no_sep (sep : Char) (as : List Char)
    (h : ∀ c ∈ as, c ≠ sep) : pySplitChar sep as = [as] := by
  induction as with
  | nil => rfl
  | cons a as ih =>
    rw [pySplitChar, if_neg (h a (List.mem_cons_self a as)),
      ih (fun c hc => h c (List.mem_cons_of_mem a hc))]

theorem pySplitChar_append (sep : Char) (as bs : List Char)
    (h : ∀ c ∈ as, c ≠ sep) :
    pySplitChar sep (as ++ sep :: bs) = as :: pySplitChar sep bs := by
  induction as with
  | nil => simp [pySplitChar]
  | cons a as ih =>
    rw [List.cons_append, pySplitChar, if_neg (h a (List.mem_cons_self a as)),
      ih (fun c hc => h c (List.mem_cons_of_mem a hc))]

theorem repr_data_eq_digitsRec (n : Nat) : (Nat.repr n).data = digitsRec n := by
  have key : ∀ fuel m acc, m < fuel →
      Nat.toDigitsCore 10 fuel m acc = digitsRec m ++ acc := by
    intro fuel
    induction fuel with
    | zero => intro m acc h; omega
    | succ fuel ih =>
      intro m acc h
      simp only [Nat.toDigitsCore]
      split
      · next hdiv =>
        have hm : m < 10 := by omega
        rw [digitsRec, dif_pos hm]
        have : m % 10 = m := Nat.mod_eq_of_lt hm
        rw [this]
        rfl
      · next hdiv =>
        have hm : ¬ m < 10 := by omega
        rw [ih (m / 10) _ (by omega), digitsRec_ge m hm, List.append_assoc]
        rfl
  show (Nat.toDigits 10 n).asString.data = digitsRec n
  rw [Nat.toDigits, key (n + 1) n [] (Nat.lt_succ_self n)]
  simp [List.asString]

theorem toString_nat_data (n : Nat) : (toString n).data = digitsRec n :=
  repr_data_eq_digitsRec n

theorem keyOfNat_data (r c : Nat) :
    (keyOfNat r c).data = digitsRec r ++ '-' :: digitsRec c := by
  rw [keyOfNat, String.data_append, String.data_append, toString_nat_data,
    toString_nat_data, List.append_assoc]
  rfl

theorem parseKey_keyOfNat (r c : Nat) :
    parseKey (keyOfNat r c) = some ((r : Int), (c : Int)) := by
  rw [parseKey, keyOfNat_data]
  rw [pySplitChar_append '-' _ _
    (fun x hx => isDigit_ne_dash x (digitsRec_all_digits r x hx))]
  rw [pySplitChar_of_no_sep '-' _
    (fun x hx => isDigit_ne_dash x (digitsRec_all_digits c x hx))]
  simp only [pyIntChars_digitsRec]

theorem pySplitChar_cons_sep (sep : Char) (cs : List Char) :
    pySplitChar sep (sep :: cs) = [] :: pySplitChar sep cs := by
  rw [pySplitChar, if_pos rfl]

theorem pySplitChar_ne_nil (sep : Char) (cs : List Char) : pySplitChar sep cs ≠ [] := by
  cases cs with
  | nil => simp [pySplitChar]
  | cons c cs =>
    rw [pySplitChar]
    split
    · simp
    · split <;> simp

theorem toString_int_ofNat (a : Nat) : toString (Int.ofNat a) = toString a := rfl

theorem toString_int_negSucc (m : Nat) :
    toString (Int.negSucc m) = "-" ++ toString (m + 1) := rfl

theorem keyOfInt_ofNat (a b : Nat) : keyOfInt (Int.ofNat a) (Int.ofNat b) = keyOfNat a b := rfl

/-- Round trip for the f-string address: a key written as `f"{row}-{col}"`
parses back to exactly `(row, col)` when both are non-negative, and fails to
parse otherwise (the sign would introduce an extra `'-'` fragment). -/
theorem parseKey_keyOfInt (r c : Int) :
    parseKey (keyOfInt r c) = if 0 ≤ r ∧ 0 ≤ c then some (r, c) else none := by
  cases r with
  | ofNat a =>
    cases c with
    | ofNat b =>
      rw [if_pos ⟨Int.ofNat_zero_le a, Int.ofNat_zero_le b⟩, keyOfInt_ofNat, parseKey_keyOfNat]
      rfl
    | negSucc m =>
      rw [if_neg (fun h => absurd h.2 (not_le.2 (Int.negSucc_lt_zero m)))]
      have hdata : (keyOfInt (Int.ofNat a) (Int.negSucc m)).data
          = digitsRec a ++ '-' :: ('-' :: digitsRec (m + 1)) := by
        rw [keyOfInt, toString_int_ofNat, toString_int_negSucc, String.data_append,
          String.data_append, String.data_append, toString_nat_data, toString_nat_data]
        simp
      rw [parseKey, hdata,
        pySplitChar_append '-' _ _
          (fun x hx => isDigit_ne_dash x (digitsRec_all_digits a x hx)),
        pySplitChar_cons_sep,
        pySplitChar_of_no_sep '-' _
          (fun x hx => isDigit_ne_dash x (digitsRec_all_digits (m + 1) x hx))]
  | negSucc m =>
    rw [if_neg (fun h => absurd h.1 (not_le.2 (Int.negSucc_lt_zero m)))]
    have hdata : (keyOfInt (Int.negSucc m) c).data
        = '-' :: (digitsRec (m + 1) ++ '-' :: (toString c).data) := by
      rw [keyOfInt, toString_int_negSucc, String.data_append, String.data_append,
        String.data_append, toString_nat_data]
      simp
    rw [parseKey, hdata, pySplitChar_cons_sep,
      pySplitChar_append '-' _ _
        (fun x hx => isDigit_ne_dash x (digitsRec_all_digits (m + 1) x hx))]
    obtain ⟨p, ps, hps⟩ : ∃ p ps, pySplitChar '-' (toString c).data = p :: ps := by
      cases hsp : pySplitChar '-' (toString c).data with
      | nil => exact absurd hsp (pySplitChar_ne_nil '-' _)
      | cons p ps => exact ⟨p, ps, rfl⟩
    rw [hps]

theorem parseKey_keyOfNat_eq (r c : Nat) :
    parseKey (keyOfNat r c) = some ((r : Int), (c : Int)) := parseKey_keyOfNat r c

theorem keyOfNat_inj (r c r2 c2 : Nat) (h : keyOfNat r c = keyOfNat r2 c2) :
    r = r2 ∧ c = c2 := by
  have h1 := parseKey_keyOfNat r c
  rw [h, parseKey_keyOfNat r2 c2] at h1
  injection h1 with h1
  have h2 : (r2 : Int) = (r : Int) := congrArg Prod.fst h1
  have h3 : (c2 : Int) = (c : Int) := congrArg Prod.snd h1
  omega

theorem mem_enumFrom_iff {α : Type} (l : List α) (n : Nat) (p : Nat × α) :
    p ∈ l.enumFrom n ↔ ∃ j, l.get? j = some p.2 ∧ p.1 = n + j := by
  induction l generalizing n with
  | nil => simp [List.enumFrom]
  | cons a l ih =>
    rw [List.enumFrom, List.mem_cons, ih (n + 1)]
    constructor
    · rintro (rfl | ⟨j, hj, hp⟩)
      · exact ⟨0, rfl, rfl⟩
      · exact ⟨j + 1, by simpa using hj, by omega⟩
    · rintro ⟨j, hj, hp⟩
      cases j with
      | zero =>
        left
        simp only [List.get?] at hj
        obtain ⟨p1, p2⟩ := p
        simp only at hp hj
        injection hj with hj
        simp [hp, hj]
      | succ j =>
        right
        refine ⟨j, by simpa using hj, by omega⟩

/-- A discovered task `(excel_row, col_idx, term, header)`. -/
abbrev CellTask := Nat × Nat × String × String

/-- Python list indexing `xs[i]` with negative-index wraparound; `none`
models an `IndexError`. -/
def pyGet {α : Type} (xs : List α) (i : Int) : Option α :=
  let j := if i < 0 then (xs.length : Int) + i else i
  if 0 ≤ j then xs.get? j.toNat else none

/-- One iteration of the `reconcile_checkpoint` loop (json variant): is
`key` stale for this grid?  A key that fails to parse is skipped (`false`);
a parsed key is stale when its data row is out of range, its column is out
of range, or the addressed value is `null`, empty, or whitespace-only. -/
def staleKey (records : List Record) (headers : List String) (key : String) : Bool :=
  match parseKey key with
  | none => false
  | some (rowIdx, colIdx) =>
    let dataRowIdx := rowIdx - 2
    if dataRowIdx < 0 ∨ (records.length : Int) ≤ dataRowIdx then true
    else if colIdx < 0 ∨ (headers.length : Int) ≤ colIdx then true
    else
      match Record.get (records.getD dataRowIdx.toNat []) (headers.getD colIdx.toNat "") with
      | none => true
      | some s => decide (pyStrip s = "")

/-- `reconcile_checkpoint` (json variant): collect the stale keys, pop each
from the ledger, and report whether `save_checkpoint` ran
(`if to_remove: save_checkpoint(checkpoint)`). -/
def reconcile_checkpoint (records : List Record) (headers : List String)
    (checkpoint : Checkpoint) : Checkpoint × Bool :=
  let toRemove := checkpoint.filter (staleKey records headers)
  (toRemove.foldl (fun cp k => cp.filter (fun x => x != k)) checkpoint,
   !toRemove.isEmpty)

/-- Inner loop of `find_missing_cells` over `enumerate(headers[1:], start=1)`:
skip empty header labels, skip cells already in the ledger or already
holding a truthy value. -/
def rowTasks (headers : List String) (checkpoint : Checkpoint) (excelRow : Nat)
    (record : Record) (term : String) : List CellTask :=
  ((headers.drop 1).enumFrom 1).filterMap (fun ch =>
    if ch.2 = "" then none
    else if keyOfNat excelRow ch.1 ∈ checkpoint ∨ truthy (Record.get record ch.2) then none
    else some (excelRow, ch.1, term, ch.2))

/-- The row scan of `find_missing_cells` (json variant): rows with a falsy
entity name (`term = record.get(headers[0], "") if headers else ""`) are
skipped; `excel_row = row_idx + 2`. -/
def find_missing_cells_fwd (headers : List String) (records : List Record)
    (checkpoint : Checkpoint) : List CellTask :=
  records.enum.flatMap (fun p =>
    let term := if headers.isEmpty then some "" else Record.get p.2 (headers.headD "")
    if truthy term then rowTasks headers checkpoint (p.1 + 2) p.2 (term.getD "")
    else [])

/-- `find_missing_cells` (json variant): the row scan, with `bottom_up`
reversing the whole task list (`list(reversed(tasks))`). -/
def find_missing_cells (headers : List String) (records : List Record)
    (checkpoint : Checkpoint) (bottom_up : Bool) : List CellTask :=
  if bottom_up then (find_missing_cells_fwd headers records checkpoint).reverse
  else find_missing_cells_fwd headers records checkpoint

/-- One result applied by `update_json_data`: write only a truthy text, only
when `0 <= row-2 < len(records)` and `col < len(headers)`; the
`headers[col]` lookup uses Python indexing (`pyGet`), whose `IndexError`
is swallowed by the surrounding `try/except`. -/
def applyResult (headers : List String) (acc : List Record × Nat)
    (res : Int × Int × Option String) : List Record × Nat :=
  if truthy res.2.2 then
    if 0 ≤ res.1 - 2 ∧ res.1 - 2 < (acc.1.length : Int) ∧
        res.2.1 < (headers.length : Int) then
      match pyGet headers res.2.1 with
      | some header =>
        (acc.1.set (res.1 - 2).toNat
          (Record.set (acc.1.getD (res.1 - 2).toNat []) header res.2.2), acc.2 + 1)
      | none => acc
    else acc
  else acc

/-- `update_json_data`: fold the batch results over the records, counting
successful writes. -/
def update_json_data (records : List Record) (headers : List String)
    (results : List (Int × Int × Option String)) : List Record × Nat :=
  results.foldl (applyResult headers) (records, 0)

/-- `update_checkpoint`: mark `f"{row}-{col}"` for every truthy result and
report whether `save_checkpoint` ran (the `dirty` flag). -/
def update_checkpoint (checkpoint : Checkpoint)
    (results : List (Int × Int × Option String)) : Checkpoint × Bool :=
  results.foldl (fun acc res =>
    if truthy res.2.2 then (dictInsert acc.1 (keyOfInt res.1 res.2.1), true) else acc)
    (checkpoint, false)

/-- Outcome of one call to the chat-completions endpoint: the raw message
content, or a raised transport exception (timeout, rate limit, ...). -/
inductive ApiResp where
  | ok (raw : String)
  | err
deriving DecidableEq

def MAX_RETRIES : Nat := 3
def RETRY_DELAY : Nat := 2
def PRIMARY_MODEL : String := "gpt-4.1-nano"
def FALLBACK_MODEL : String := "gpt-3.5-turbo"
def MAX_WORKERS : Nat := 25
def BATCH_SIZE : Nat := MAX_WORKERS * 3
def CHECKPOINT_FILE : String := "checkpoint.json"

/-- The `for attempt in range(MAX_RETRIES + 1)` loop of `call_openai_api`,
as structural recursion on the remaining attempts.  The trace records, per
attempt, the model used and the back-off sleep performed after it (`none`
when that attempt did not sleep): a too-short stripped content `continue`s
without sleeping, while a caught exception sleeps
`RETRY_DELAY * (attempt + 1)` before the next attempt. -/
def callAux (oracle : Nat → ApiResp) : Nat → Nat → Option String × List (String × Option Nat)
  | 0, _ => (none, [])
  | fuel + 1, attempt =>
    let model := if attempt < MAX_RETRIES then PRIMARY_MODEL else FALLBACK_MODEL
    match oracle attempt with
    | .ok raw =>
      let content := pyStrip raw
      if content ≠ "" ∧ 10 < content.length then (some content, [(model, none)])
      else if attempt < MAX_RETRIES then
        let next := callAux oracle fuel (attempt + 1)
        (next.1, (model, none) :: next.2)
      else (some content, [(model, none)])
    | .err =>
      if attempt < MAX_RETRIES then
        let next := callAux oracle fuel (attempt + 1)
        (next.1, (model, some (RETRY_DELAY * (attempt + 1))) :: next.2)
      else (none, [(model, none)])

/-- `call_openai_api`: run the attempt loop from attempt `0`. -/
def call_openai_api (oracle : Nat → ApiResp) : Option String × List (String × Option Nat) :=
  callAux oracle (MAX_RETRIES + 1) 0

/-- `load_checkpoint`, with `json.loads` abstracted as the `decode` oracle,
`int(time.time())` as `now`, and the checkpoint file content as `file`
(`none` when the file does not exist).  Returns the ledger plus the rename
performed on a corrupted file (`none` when no rename happened); totality of
this function is the no-crash guarantee. -/
def load_checkpoint (decode : String → Option Checkpoint) (now : Nat)
    (file : Option String) : Checkpoint × Option (String × String) :=
  match file with
  | none => ([], none)
  | some text =>
    match decode text with
    | some cp => (cp, none)
    | none => ([], some (CHECKPOINT_FILE, CHECKPOINT_FILE ++ ".corrupted." ++ toString now))

/-- The `while len(row) < len(headers): row.append("")` padding performed in
place on each row by the CSV variant of `find_missing_cells`. -/
def padRow (headers : List String) (row : List String) : List String :=
  row ++ List.replicate (headers.length - row.length) ""

/-- Inner column loop of the CSV `find_missing_cells`
(`key in checkpoint or (col_idx < len(row) and row[col_idx])`). -/
def rowTasksCsv (headers : List String) (checkpoint : Checkpoint) (excelRow : Nat)
    (row : List String) (term : String) : List CellTask :=
  ((headers.drop 1).enumFrom 1).filterMap (fun ch =>
    if ch.2 = "" then none
    else if keyOfNat excelRow ch.1 ∈ checkpoint ∨
        (ch.1 < row.length ∧ row.getD ch.1 "" ≠ "") then none
    else some (excelRow, ch.1, term, ch.2))

/-- CSV `find_missing_cells`: pads every row in place before scanning it;
the second component returns the rows as the loop leaves them (the visible
mutation of the caller's `rows`). -/
def find_missing_cells_csv (headers : List String) (rows : List (List String))
    (checkpoint : Checkpoint) (bottom_up : Bool) : List CellTask × List (List String) :=
  let rowsP := rows.map (padRow headers)
  let tasks := rowsP.enum.flatMap (fun p =>
    let term := p.2.headD ""
    if term = "" then [] else rowTasksCsv headers checkpoint (p.1 + 2) p.2 term)
  ((if bottom_up then tasks.reverse else tasks), rowsP)

/-- `tasks[i : i + BATCH_SIZE]` slices of the `range(0, total, BATCH_SIZE)`
loop, with the list length as structural fuel. -/
def chunksAux {α : Type} (n : Nat) : Nat → List α → List (List α)
  | 0, l => if l.isEmpty then [] else [l]
  | fuel + 1, l => if l.isEmpty then [] else l.take n :: chunksAux n fuel (l.drop n)

/-- Partition a list into consecutive slices of size `n`. -/
def chunks {α : Type} (n : Nat) (l : List α) : List (List α) := chunksAux n l.length l

/-- One run of `batch_process_parallel` under the deterministic schedule in
which each batch's results arrive in submission order: reconcile, discover,
then per batch apply `update_json_data` followed by `update_checkpoint`.
Returns the final in-memory records and ledger. -/
def batch_process_parallel (oracle : Nat → Nat → String → String → Option String)
    (headers : List String) (records : List Record) (checkpoint : Checkpoint)
    (bottom_up : Bool) : List Record × Checkpoint :=
  let cp1 := (reconcile_checkpoint records headers checkpoint).1
  let tasks := find_missing_cells headers records cp1 bottom_up
  let results := tasks.map (fun t =>
    ((t.1 : Int), (t.2.1 : Int), oracle t.1 t.2.1 t.2.2.1 t.2.2.2))
  (chunks BATCH_SIZE results).foldl
    (fun acc batch =>
      ((update_json_data acc.1 headers batch).1, (update_checkpoint acc.2 batch).1))
    (records, cp1)

example : parseKey "2-1" = some (2, 1) := by decide
example : parseKey "abc" = none := by decide
example : parseKey "2--1" = none := by decide
example : staleKey [[("T", some "A")]] ["T", "S"] "2-1" = true := by decide
example : staleKey [[("T", some "A"), ("S", some "x")]] ["T", "S"] "2-1" = false := by decide
example : find_missing_cells ["T", "S"] [[("T", some "A")]] [] false = [(2, 1, "A", "S")] := by decide
example : (reconcile_checkpoint [[("T", some "A")]] ["T", "S"] ["2-1", "zz"]) = (["zz"], true) := by decide
example :
    call_openai_api (fun _ => ApiResp.err) =
      (none, [(PRIMARY_MODEL, some 2), (PRIMARY_MODEL, some 4), (PRIMARY_MODEL, some 6),
        (FALLBACK_MODEL, none)]) := by decide
example :
    (find_missing_cells_csv ["T", "S"] [["A"]] [] false).2 = [["A", ""]] := by decide
example :
    batch_process_parallel (fun _ _ _ _ => some "x") ["T", "S"] [[("T", some "A")]] [] false =
      ([[("T", some "A"), ("S", some "x")]], [("2-1" : String)]) := by decide

theorem mem_foldl_pop (L : List String) :
    ∀ (cp : List String) (k : String),
      k ∈ L.foldl (fun cp k => cp.filter (fun x => x != k)) cp ↔ k ∈ cp ∧ k ∉ L := by
  induction L with
  | nil => simp
  | cons a L ih =>
    intro cp k
    rw [List.foldl_cons, ih]
    simp only [List.mem_filter, bne_iff_ne, ne_eq, decide_eq_true_eq, List.mem_cons]
    constructor
    · rintro ⟨⟨h1, h2⟩, h3⟩
      exact ⟨h1, by tauto⟩
    · rintro ⟨h1, h2⟩
      exact ⟨⟨h1, by tauto⟩, by tauto⟩

theorem reconcile_mem (records : List Record) (headers : List String)
    (cp : Checkpoint) (k : String) :
    k ∈ (reconcile_checkpoint records headers cp).1 ↔
      k ∈ cp ∧ staleKey records headers k = false := by
  rw [reconcile_checkpoint]
  simp only [mem_foldl_pop, List.mem_filter]
  constructor
  · rintro ⟨h1, h2⟩
    refine ⟨h1, ?_⟩
    cases h : staleKey records headers k with
    | false => rfl
    | true => exact absurd ⟨h1, h⟩ h2
  · rintro ⟨h1, h2⟩
    exact ⟨h1, fun h => by rw [h2] at h; exact Bool.noConfusion h.2⟩

/-- A cell value that reconciliation counts as missing: a JSON `null`, or a
string that is empty after stripping whitespace. -/
def cellEmptyProp (v : Option String) : Prop :=
  v = none ∨ ∃ s, v = some s ∧ pyStrip s = ""

/-- The removal condition exactly as the specification states it: the key
parses as two integers, and the data row is out of the grid's bounds, or
the column is out of the headers' bounds, or the addressed cell value is
empty or whitespace-only. -/
def staleSpec (records : List Record) (headers : List String) (k : String) : Prop :=
  ∃ r c : Int, parseKey k = some (r, c) ∧
    (r - 2 < 0 ∨ (records.length : Int) ≤ r - 2 ∨ c < 0 ∨ (headers.length : Int) ≤ c ∨
      cellEmptyProp (Record.get (records.getD (r - 2).toNat []) (headers.getD c.toNat "")))

theorem staleKey_iff (records : List Record) (headers : List String) (k : String) :
    staleKey records headers k = true ↔ staleSpec records headers k := by
  rw [staleKey, staleSpec]
  cases hp : parseKey k with
  | none => simp
  | some rc =>
    obtain ⟨r, c⟩ := rc
    simp only [Option.some.injEq, Prod.mk.injEq]
    constructor
    · intro h
      refine ⟨r, c, ⟨rfl, rfl⟩, ?_⟩
      by_cases h1 : r - 2 < 0 ∨ (records.length : Int) ≤ r - 2
      · tauto
      by_cases h2 : c < 0 ∨ (headers.length : Int) ≤ c
      · tauto
      rw [if_neg h1, if_neg h2] at h
      cases hv : Record.get (records.getD (r - 2).toNat []) (headers.getD c.toNat "") with
      | none => exact Or.inr (Or.inr (Or.inr (Or.inr (Or.inl rfl))))
      | some s =>
        rw [hv] at h
        simp only [decide_eq_true_eq] at h
        exact Or.inr (Or.inr (Or.inr (Or.inr (Or.inr ⟨s, rfl, h⟩))))
    · rintro ⟨r2, c2, heq, hd⟩
      obtain ⟨rfl, rfl⟩ : r = r2 ∧ c = c2 := ⟨heq.1, heq.2⟩
      by_cases h1 : r - 2 < 0 ∨ (records.length : Int) ≤ r - 2
      · rw [if_pos h1]
      by_cases h2 : c < 0 ∨ (headers.length : Int) ≤ c
      · rw [if_neg h1, if_pos h2]
      rw [if_neg h1, if_neg h2]
      have hd2 : cellEmptyProp
          (Record.get (records.getD (r - 2).toNat []) (headers.getD c.toNat "")) := by
        rcases hd with h | h | h | h | h
        · omega
        · omega
        · omega
        · omega
        · exact h
      rcases hd2 with h | ⟨s, hs, hstrip⟩
      · rw [h]
      · rw [hs]
        simpa using hstrip

/-- C1: reconciliation removes from the ledger exactly the entries whose
key parses as two integers addressing an out-of-range row, an out-of-range
column, or an empty/whitespace-only cell — and no other parseable entry —
and it persists the ledger (`save_checkpoint` runs) if and only if at least
one entry was removed. -/
theorem claim_C1_reconcile_exact (records : List Record) (headers : List String)
    (cp : Checkpoint) (k : String) :
    ((k ∈ cp ∧ k ∉ (reconcile_checkpoint records headers cp).1) ↔
      (k ∈ cp ∧ staleSpec records headers k)) ∧
    ((reconcile_checkpoint records headers cp).2 = true ↔
      ∃ j, j ∈ cp ∧ j ∉ (reconcile_checkpoint records headers cp).1) := by
  constructor
  · constructor
    · rintro ⟨h1, h2⟩
      refine ⟨h1, ?_⟩
      rw [← staleKey_iff]
      cases h : staleKey records headers k with
      | true => rfl
      | false => exact absurd ((reconcile_mem records headers cp k).2 ⟨h1, h⟩) h2
    · rintro ⟨h1, h2⟩
      refine ⟨h1, fun hmem => ?_⟩
      have := ((reconcile_mem records headers cp k).1 hmem).2
      rw [← staleKey_iff] at h2
      rw [h2] at this
      exact Bool.noConfusion this
  · rw [reconcile_checkpoint]
    simp only [Bool.not_eq_true', Bool.not_eq_false]
    rw [List.isEmpty_eq_false_iff_exists_mem]
    constructor
    · rintro ⟨j, hj⟩
      rw [List.mem_filter] at hj
      refine ⟨j, hj.1, fun hmem => ?_⟩
      have := ((reconcile_mem records headers cp j).1 hmem).2
      rw [hj.2] at this
      exact Bool.noConfusion this
    · rintro ⟨j, hj, hnot⟩
      refine ⟨j, List.mem_filter.2 ⟨hj, ?_⟩⟩
      cases h : staleKey records headers j with
      | true => rfl
      | false => exact absurd ((reconcile_mem records headers cp j).2 ⟨hj, h⟩) hnot

/-- C9: a ledger entry whose key does not parse as two dash-separated
integers is skipped by reconciliation and survives it, and its key can
never be the address of any discovered task. -/
theorem claim_C9_malformed_keys_survive (records : List Record) (headers : List String)
    (cp : Checkpoint) (b : Bool) (k : String) (hk : k ∈ cp)
    (hp : parseKey k = none) :
    k ∈ (reconcile_checkpoint records headers cp).1 ∧
    ∀ t ∈ find_missing_cells headers records cp b, keyOfNat t.1 t.2.1 ≠ k := by
  constructor
  · rw [reconcile_mem]
    exact ⟨hk, by rw [staleKey, hp]⟩
  · intro t _ht heq
    have h2 := parseKey_keyOfNat t.1 t.2.1
    rw [heq, hp] at h2
    exact Option.noConfusion h2

/-- Witness for C9 at a concrete malformed key. -/
theorem claim_C9_witness :
    "foo" ∈ (reconcile_checkpoint [[("T", some "A")]] ["T", "S"] ["foo"]).1 ∧
    ∀ t ∈ find_missing_cells ["T", "S"] [[("T", some "A")]] ["foo"] false,
      keyOfNat t.1 t.2.1 ≠ "foo" :=
  claim_C9_malformed_keys_survive [[("T", some "A")]] ["T", "S"] ["foo"] false "foo"
    (by decide) (by decide)

/-- C3: under an oracle that always raises (e.g. always times out), the
client makes exactly `MAX_RETRIES` primary-model attempts followed by one
fallback-model attempt, returns `None`, and the sleep after attempt `i` is
`RETRY_DELAY * (i + 1)`, so the delays are strictly increasing. -/
theorem claim_C3_retry_exhaustion (oracle : Nat → ApiResp)
    (h : ∀ n, oracle n = ApiResp.err) :
    call_openai_api oracle =
      (none, [(PRIMARY_MODEL, some (RETRY_DELAY * 1)), (PRIMARY_MODEL, some (RETRY_DELAY * 2)),
        (PRIMARY_MODEL, some (RETRY_DELAY * 3)), (FALLBACK_MODEL, none)]) ∧
    ((call_openai_api oracle).2.map Prod.fst =
      List.replicate MAX_RETRIES PRIMARY_MODEL ++ [FALLBACK_MODEL]) ∧
    ((call_openai_api oracle).2.filterMap Prod.snd =
      (List.range MAX_RETRIES).map (fun i => RETRY_DELAY * (i + 1))) ∧
    List.Chain' (· < ·) ((call_openai_api oracle).2.filterMap Prod.snd) := by
  have he : call_openai_api oracle =
      (none, [(PRIMARY_MODEL, some (RETRY_DELAY * 1)), (PRIMARY_MODEL, some (RETRY_DELAY * 2)),
        (PRIMARY_MODEL, some (RETRY_DELAY * 3)), (FALLBACK_MODEL, none)]) := by
    simp [call_openai_api, callAux, h, MAX_RETRIES, RETRY_DELAY]
  refine ⟨he, ?_, ?_, ?_⟩
  · rw [he]; decide
  · rw [he]; decide
  · rw [he]
    simp [List.filterMap, RETRY_DELAY]

/-- Witness for C3: the concrete always-raising oracle. -/
theorem claim_C3_witness :
    call_openai_api (fun _ => ApiResp.err) =
      (none, [(PRIMARY_MODEL, some (RETRY_DELAY * 1)), (PRIMARY_MODEL, some (RETRY_DELAY * 2)),
        (PRIMARY_MODEL, some (RETRY_DELAY * 3)), (FALLBACK_MODEL, none)]) ∧
    ((call_openai_api (fun _ => ApiResp.err)).2.map Prod.fst =
      List.replicate MAX_RETRIES PRIMARY_MODEL ++ [FALLBACK_MODEL]) ∧
    ((call_openai_api (fun _ => ApiResp.err)).2.filterMap Prod.snd =
      (List.range MAX_RETRIES).map (fun i => RETRY_DELAY * (i + 1))) ∧
    List.Chain' (· < ·) ((call_openai_api (fun _ => ApiResp.err)).2.filterMap Prod.snd) :=
  claim_C3_retry_exhaustion (fun _ => ApiResp.err) (fun _ => rfl)

/-- Counterexample to C6 as stated: with every response `"0123456789"`
(ten characters, so at most the minimum), the three short-response retries
perform no sleep at all, whereas genuine transient errors sleep the
increasing backoff delays — so a short response is not retried with the
same backoff delay as other transient errors. -/
theorem claim_C6_counterexample :
    (call_openai_api (fun _ => ApiResp.ok "0123456789")).2.filterMap Prod.snd = [] ∧
    (call_openai_api (fun _ => ApiResp.err)).2.filterMap Prod.snd =
      [RETRY_DELAY * 1, RETRY_DELAY * 2, RETRY_DELAY * 3] := by
  decide

/-- A response whose stripped content fails the acceptance test
(`content and len(content) > 10`). -/
def shortOk : ApiResp → Bool
  | ApiResp.ok raw => decide (pyStrip raw = "") || decide ((pyStrip raw).length ≤ 10)
  | ApiResp.err => false

/-- C6 as amended: a response that is empty after stripping or no longer
than the 10-character minimum is treated as retryable on every attempt
before the final one, but it is retried immediately, with no backoff sleep
(the backoff delays apply only to raised transport errors); on the final
attempt whatever text came back, even short or empty, is accepted as the
result. -/
theorem claim_C6_short_retry (oracle : Nat → ApiResp)
    (h : ∀ n, n ≤ MAX_RETRIES → shortOk (oracle n) = true) :
    (∃ raw, oracle MAX_RETRIES = ApiResp.ok raw ∧
      call_openai_api oracle = (some (pyStrip raw),
        [(PRIMARY_MODEL, none), (PRIMARY_MODEL, none), (PRIMARY_MODEL, none),
          (FALLBACK_MODEL, none)])) ∧
    (call_openai_api oracle).2.filterMap Prod.snd = [] := by
  have g : ∀ n, n ≤ MAX_RETRIES → ∃ raw, oracle n = ApiResp.ok raw ∧
      ¬(pyStrip raw ≠ "" ∧ 10 < (pyStrip raw).length) := by
    intro n hn
    have hsk := h n hn
    cases ho : oracle n with
    | err => rw [ho] at hsk; exact Bool.noConfusion hsk
    | ok raw =>
      rw [ho] at hsk
      simp only [shortOk, Bool.or_eq_true, decide_eq_true_eq] at hsk
      refine ⟨raw, rfl, ?_⟩
      rintro ⟨hne, hlen⟩
      rcases hsk with h1 | h1
      · exact hne h1
      · omega
  obtain ⟨r0, ho0, hs0⟩ := g 0 (by decide)
  obtain ⟨r1, ho1, hs1⟩ := g 1 (by decide)
  obtain ⟨r2, ho2, hs2⟩ := g 2 (by decide)
  obtain ⟨r3, ho3, hs3⟩ := g 3 (by decide)
  have hcall : call_openai_api oracle = (some (pyStrip r3),
      [(PRIMARY_MODEL, none), (PRIMARY_MODEL, none), (PRIMARY_MODEL, none),
        (FALLBACK_MODEL, none)]) := by
    simp [call_openai_api, callAux, MAX_RETRIES, ho0, ho1, ho2, ho3, hs0, hs1, hs2, hs3]
  refine ⟨⟨r3, ho3, hcall⟩, ?_⟩
  rw [hcall]
  rfl

/-- Witness for the amended C6 at a concrete always-short oracle. -/
theorem claim_C6_witness :
    (∃ raw, ApiResp.ok "hi" = ApiResp.ok raw ∧
      call_openai_api (fun _ => ApiResp.ok "hi") = (some (pyStrip raw),
        [(PRIMARY_MODEL, none), (PRIMARY_MODEL, none), (PRIMARY_MODEL, none),
          (FALLBACK_MODEL, none)])) ∧
    (call_openai_api (fun _ => ApiResp.ok "hi")).2.filterMap Prod.snd = [] :=
  claim_C6_short_retry (fun _ => ApiResp.ok "hi")
    (fun _ _ => (by decide : shortOk (ApiResp.ok "hi") = true))

/-- C8: when the checkpoint file content fails to decode as JSON, loading
does not raise (the embedding is a total function that returns), renames
the corrupted file to the timestamp-suffixed backup name, and returns an
empty ledger. -/
theorem claim_C8_corrupt_checkpoint (decode : String → Option Checkpoint) (now : Nat)
    (text : String) (h : decode text = none) :
    load_checkpoint decode now (some text) =
      ([], some (CHECKPOINT_FILE, CHECKPOINT_FILE ++ ".corrupted." ++ toString now)) := by
  simp [load_checkpoint, h]

/-- Witness for C8 at a concrete undecodable content. -/
theorem claim_C8_witness :
    load_checkpoint (fun _ => none) 1700000000 (some "not json") =
      ([], some (CHECKPOINT_FILE, CHECKPOINT_FILE ++ ".corrupted." ++ toString 1700000000)) :=
  claim_C8_corrupt_checkpoint (fun _ => none) 1700000000 "not json" rfl

theorem foldl_filter_id {α β : Type} (f : β → α → β) (p : α → Bool)
    (hid : ∀ b a, p a = false → f b a = b) :
    ∀ (l : List α) (b : β), (l.filter p).foldl f b = l.foldl f b := by
  intro l
  induction l with
  | nil => intro b; rfl
  | cons a l ih =>
    intro b
    rw [List.filter_cons, List.foldl_cons]
    cases hpa : p a with
    | true => rw [if_pos rfl, List.foldl_cons, ih]
    | false =>
      simp only [Bool.false_eq_true, if_false]
      rw [ih, hid b a hpa]

/-- C10: a batch result whose text is `None` or `""` is inert: applied on
its own it leaves the records unchanged, increments no update counter, adds
no ledger mark, and leaves the checkpoint-save flag off; and in general
both updates ignore every falsy result (only the truthy sublist of the
results matters). -/
theorem claim_C10_falsy_results_inert (records : List Record) (headers : List String)
    (cp : Checkpoint) (row col : Int) (t : Option String)
    (results : List (Int × Int × Option String)) (h : t = none ∨ t = some "") :
    update_json_data records headers [(row, col, t)] = (records, 0) ∧
    update_checkpoint cp [(row, col, t)] = (cp, false) ∧
    update_json_data records headers (results.filter (fun x => truthy x.2.2)) =
      update_json_data records headers results ∧
    update_checkpoint cp (results.filter (fun x => truthy x.2.2)) =
      update_checkpoint cp results := by
  have ht : truthy t = false := by
    rcases h with rfl | rfl <;> simp [truthy]
  refine ⟨?_, ?_, ?_, ?_⟩
  · simp [update_json_data, applyResult, ht]
  · simp [update_checkpoint, ht]
  · exact foldl_filter_id _ _
      (fun b a ha => by simp [applyResult, ha]) results (records, 0)
  · exact foldl_filter_id _ _
      (fun b a ha => by simp [ha]) results (cp, false)

/-- Witness for C10 at a concrete falsy result. -/
theorem claim_C10_witness :
    update_json_data [[("T", some "A")]] ["T", "S"] [((2 : Int), (1 : Int), none)] =
      ([[("T", some "A")]], 0) ∧
    update_checkpoint ["9-9"] [((2 : Int), (1 : Int), none)] = (["9-9"], false) ∧
    update_json_data [[("T", some "A")]] ["T", "S"]
      ([((2 : Int), (1 : Int), none), ((2 : Int), (1 : Int), some "ok")].filter
        (fun x => truthy x.2.2)) =
      update_json_data [[("T", some "A")]] ["T", "S"]
        [((2 : Int), (1 : Int), none), ((2 : Int), (1 : Int), some "ok")] ∧
    update_checkpoint ["9-9"]
      ([((2 : Int), (1 : Int), none), ((2 : Int), (1 : Int), some "ok")].filter
        (fun x => truthy x.2.2)) =
      update_checkpoint ["9-9"]
        [((2 : Int), (1 : Int), none), ((2 : Int), (1 : Int), some "ok")] :=
  claim_C10_falsy_results_inert [[("T", some "A")]] ["T", "S"] ["9-9"] 2 1 none
    [((2 : Int), (1 : Int), none), ((2 : Int), (1 : Int), some "ok")] (Or.inl rfl)

theorem truthy_iff (v : Option String) : truthy v = true ↔ ∃ s, v = some s ∧ s ≠ "" := by
  cases v with
  | none => simp [truthy]
  | some s => simp [truthy]

theorem mem_enum_iff {α : Type} (l : List α) (p : Nat × α) :
    p ∈ l.enum ↔ l.get? p.1 = some p.2 := by
  rw [show l.enum = l.enumFrom 0 from rfl, mem_enumFrom_iff]
  constructor
  · rintro ⟨j, hj, hp⟩
    rw [hp]
    simpa using hj
  · intro h
    exact ⟨p.1, h, by omega⟩

theorem rowTasks_mem (headers : List String) (cp : Checkpoint) (er : Nat)
    (record : Record) (term : String) (x : CellTask) :
    x ∈ rowTasks headers cp er record term ↔
      ∃ c h, headers.get? c = some h ∧ 1 ≤ c ∧ h ≠ "" ∧
        keyOfNat er c ∉ cp ∧ truthy (Record.get record h) = false ∧
        x = (er, c, term, h) := by
  rw [rowTasks, List.mem_filterMap]
  constructor
  · rintro ⟨ch, hmem, hf⟩
    obtain ⟨c0, h0⟩ := ch
    obtain ⟨j, hj, hfst⟩ := (mem_enumFrom_iff _ 1 (c0, h0)).1 hmem
    dsimp only at hj hfst
    rw [List.get?_drop] at hj
    split_ifs at hf with h1 h2
    have hx := Option.some.inj hf
    subst hx
    push_neg at h2
    obtain ⟨hcp, htr⟩ := h2
    dsimp only at h1 hcp htr
    simp only [ne_eq, Bool.not_eq_true] at htr
    exact ⟨c0, h0, by rw [hfst]; exact hj, by omega, h1, hcp, htr, rfl⟩
  · rintro ⟨c, h, hc, h1c, hne, hcp, htr, rfl⟩
    refine ⟨(c, h), ?_, ?_⟩
    · rw [mem_enumFrom_iff]
      refine ⟨c - 1, ?_, by omega⟩
      dsimp only
      rw [List.get?_drop]
      rw [show 1 + (c - 1) = c by omega]
      exact hc
    · dsimp only
      rw [if_neg hne, if_neg ?_]
      rintro (hmem | htru)
      · exact hcp hmem
      · rw [htr] at htru
        exact Bool.noConfusion htru

/-- The candidate condition of the specification, spelled out: the row
exists and its entity-name column holds the truthy value `t`; column `c`
is a section column (`c >= 1`) with the non-empty label `h`; the f-string
address is not in the ledger; and the cell's current value is falsy. -/
def taskSpec (headers : List String) (records : List Record) (cp : Checkpoint)
    (r c : Nat) (t h : String) : Prop :=
  ∃ ri, records.get? ri = some (records.getD ri []) ∧ ri < records.length ∧ r = ri + 2 ∧
    (∃ h0, headers.get? 0 = some h0 ∧
      Record.get (records.getD ri []) h0 = some t ∧ t ≠ "") ∧
    headers.get? c = some h ∧ 1 ≤ c ∧ h ≠ "" ∧
    keyOfNat r c ∉ cp ∧ truthy (Record.get (records.getD ri []) h) = false

theorem get?_some_getD {α : Type} (l : List α) (i : Nat) (a d : α) (h : l.get? i = some a) :
    i < l.length ∧ l.getD i d = a := by
  constructor
  · by_contra hlt
    push_neg at hlt
    rw [List.get?_eq_none.2 hlt] at h
    cases h
  · show (l.get? i).getD d = a
    rw [h]
    rfl

theorem getD_get? {α : Type} (l : List α) (i : Nat) (d : α) (h : i < l.length) :
    l.get? i = some (l.getD i d) := by
  cases hg : l.get? i with
  | none =>
    rw [List.get?_eq_none] at hg
    omega
  | some a =>
    have ha : l.getD i d = a := by
      show (l.get? i).getD d = a
      rw [hg]
      rfl
    rw [ha]

theorem find_fwd_mem (headers : List String) (records : List Record) (cp : Checkpoint)
    (r c : Nat) (t h : String) :
    (r, c, t, h) ∈ find_missing_cells_fwd headers records cp ↔
      taskSpec headers records cp r c t h := by
  rw [find_missing_cells_fwd, List.mem_flatMap]
  constructor
  · rintro ⟨p, hp, hx⟩
    obtain ⟨ri, rec⟩ := p
    rw [mem_enum_iff] at hp
    dsimp only at hp hx
    by_cases hemp : headers.isEmpty
    · rw [if_pos hemp] at hx
      simp [truthy] at hx
    · rw [if_neg hemp] at hx
      by_cases hterm : truthy (Record.get rec (headers.headD "")) = true
      · rw [if_pos hterm] at hx
        rw [rowTasks_mem] at hx
        obtain ⟨c2, h2, hc2, h1c2, hne2, hcp2, htr2, hx⟩ := hx
        simp only [Prod.mk.injEq] at hx
        obtain ⟨hr, hcc, ht, hhh⟩ := hx
        subst hr
        subst hcc
        subst ht
        subst hhh
        rw [truthy_iff] at hterm
        obtain ⟨t0, hget0, ht0⟩ := hterm
        have hgd : (Record.get rec (headers.headD "")).getD "" = t0 := by
          rw [hget0]
          rfl
        obtain ⟨hlen, hrecD⟩ := get?_some_getD records ri rec [] hp
        have hh0 : headers.get? 0 = some (headers.headD "") := by
          cases headers with
          | nil => simp [List.isEmpty] at hemp
          | cons a l => rfl
        rw [hgd]
        refine ⟨ri, by rw [hrecD]; exact hp, hlen, rfl, ?_, hc2, h1c2, hne2, hcp2, ?_⟩
        · exact ⟨headers.headD "", hh0, by rw [hrecD]; exact hget0, ht0⟩
        · rw [hrecD]
          exact htr2
      · rw [if_neg hterm] at hx
        simp at hx
  · rintro ⟨ri, hgets, hlen, hrr, ⟨h0, hh0, hget0, ht0⟩, hc, h1c, hh, hcp, htr⟩
    subst hrr
    cases headers with
    | nil => cases hh0
    | cons a hs =>
      have ha : a = h0 := Option.some.inj hh0
      subst ha
      refine ⟨(ri, records.getD ri []), ?_, ?_⟩
      · rw [mem_enum_iff]
        exact hgets
      · show (ri + 2, c, t, h) ∈
          (if truthy (Record.get (records.getD ri []) a) = true then
            rowTasks (a :: hs) cp (ri + 2) (records.getD ri [])
              ((Record.get (records.getD ri []) a).getD "")
          else [])
        rw [hget0, if_pos (by simp [truthy, ht0])]
        rw [rowTasks_mem]
        exact ⟨c, h, hc, h1c, hh, hcp, htr, rfl⟩

/-- Row-major strict ordering on tasks: earlier row, or same row and
earlier column. -/
def taskLT (a b : CellTask) : Prop := a.1 < b.1 ∨ (a.1 = b.1 ∧ a.2.1 < b.2.1)

theorem pairwise_filterMap_of {α β : Type} (R : α → α → Prop) (S : β → β → Prop)
    (f : α → Option β) (l : List α)
    (hf : ∀ a b x y, R a b → f a = some x → f b = some y → S x y)
    (hl : l.Pairwise R) : (l.filterMap f).Pairwise S := by
  induction l with
  | nil => exact List.Pairwise.nil
  | cons a l ih =>
    rw [List.pairwise_cons] at hl
    rw [List.filterMap_cons]
    cases hfa : f a with
    | none => exact ih hl.2
    | some b =>
      rw [List.pairwise_cons]
      refine ⟨?_, ih hl.2⟩
      intro y hy
      obtain ⟨a2, ha2, hfa2⟩ := List.mem_filterMap.1 hy
      exact hf a a2 b y (hl.1 a2 ha2) hfa hfa2

theorem pairwise_flatMap_of {α β : Type} (R : α → α → Prop) (S : β → β → Prop)
    (f : α → List β) (l : List α)
    (hin : ∀ a ∈ l, (f a).Pairwise S)
    (hcross : ∀ a b, R a b → ∀ x ∈ f a, ∀ y ∈ f b, S x y)
    (hl : l.Pairwise R) : (l.flatMap f).Pairwise S := by
  induction l with
  | nil => exact List.Pairwise.nil
  | cons a l ih =>
    rw [List.pairwise_cons] at hl
    rw [List.flatMap_cons, List.pairwise_append]
    refine ⟨hin a (List.mem_cons_self a l),
      ih (fun x hx => hin x (List.mem_cons_of_mem a hx)) hl.2, ?_⟩
    intro x hx y hy
    obtain ⟨b, hb, hyb⟩ := List.mem_flatMap.1 hy
    exact hcross a b (hl.1 b hb) x hx y hyb

theorem pairwise_enumFrom {α : Type} (l : List α) (n : Nat) :
    (l.enumFrom n).Pairwise (fun a b => a.1 < b.1) := by
  induction l generalizing n with
  | nil => exact List.Pairwise.nil
  | cons a l ih =>
    show ((n, a) :: l.enumFrom (n + 1)).Pairwise _
    rw [List.pairwise_cons]
    refine ⟨?_, ih (n + 1)⟩
    intro b hb
    have := List.le_fst_of_mem_enumFrom hb
    simp only at this ⊢
    omega

theorem rowTasks_pairwise (headers : List String) (cp : Checkpoint) (er : Nat)
    (record : Record) (term : String) :
    (rowTasks headers cp er record term).Pairwise taskLT := by
  rw [rowTasks]
  apply pairwise_filterMap_of (fun a b : Nat × String => a.1 < b.1)
  · intro a b x y hR hfa hfb
    split_ifs at hfa hfb
    rw [← Option.some.inj hfa, ← Option.some.inj hfb]
    exact Or.inr ⟨rfl, hR⟩
  · exact pairwise_enumFrom _ 1

theorem rowBody_row (headers : List String) (cp : Checkpoint) (er : Nat)
    (record : Record) (term : String) (x : CellTask)
    (hx : x ∈ rowTasks headers cp er record term) : x.1 = er := by
  obtain ⟨c2, h2, _, _, _, _, _, hxe⟩ := (rowTasks_mem headers cp er record term x).1 hx
  rw [hxe]

theorem find_fwd_pairwise (headers : List String) (records : List Record)
    (cp : Checkpoint) :
    (find_missing_cells_fwd headers records cp).Pairwise taskLT := by
  rw [find_missing_cells_fwd]
  apply pairwise_flatMap_of (fun a b : Nat × Record => a.1 < b.1)
  · intro p _hp
    show List.Pairwise taskLT
      (if truthy (if headers.isEmpty then some ""
          else Record.get p.2 (headers.headD "")) = true then
        rowTasks headers cp (p.1 + 2) p.2
          ((if headers.isEmpty then some ""
            else Record.get p.2 (headers.headD "")).getD "")
      else [])
    split_ifs <;> first
      | exact rowTasks_pairwise _ _ _ _ _
      | exact List.Pairwise.nil
  · intro a b hR x hx y hy
    have hx2 : x.1 = a.1 + 2 := by
      have hx3 : x ∈ (if truthy (if headers.isEmpty then some ""
            else Record.get a.2 (headers.headD "")) = true then
          rowTasks headers cp (a.1 + 2) a.2
            ((if headers.isEmpty then some ""
              else Record.get a.2 (headers.headD "")).getD "")
        else []) := hx
      split_ifs at hx3 <;> first
        | exact rowBody_row _ _ _ _ _ _ hx3
        | exact absurd hx3 (List.not_mem_nil x)
    have hy2 : y.1 = b.1 + 2 := by
      have hy3 : y ∈ (if truthy (if headers.isEmpty then some ""
            else Record.get b.2 (headers.headD "")) = true then
          rowTasks headers cp (b.1 + 2) b.2
            ((if headers.isEmpty then some ""
              else Record.get b.2 (headers.headD "")).getD "")
        else []) := hy
      split_ifs at hy3 <;> first
        | exact rowBody_row _ _ _ _ _ _ hy3
        | exact absurd hy3 (List.not_mem_nil y)
    exact Or.inl (by omega)
  · exact pairwise_enumFrom records 0

/-- C4: forward discovery returns exactly the candidate cells of the
specification, in strictly increasing row-major order, and reverse
discovery is exactly the reversal of the forward list (same set, whole
rows never interleaved). -/
theorem claim_C4_discovery_exact (headers : List String) (records : List Record)
    (cp : Checkpoint) :
    (∀ r c t h, ((r, c, t, h) ∈ find_missing_cells headers records cp false ↔
      taskSpec headers records cp r c t h)) ∧
    (find_missing_cells headers records cp false).Pairwise taskLT ∧
    find_missing_cells headers records cp true =
      (find_missing_cells headers records cp false).reverse := by
  refine ⟨fun r c t h => find_fwd_mem headers records cp r c t h,
    find_fwd_pairwise headers records cp, rfl⟩


theorem find?_append_none {α : Type} (p : α → Bool) (l1 l2 : List α)
    (h : l1.find? p = none) : (l1 ++ l2).find? p = l2.find? p := by
  induction l1 with
  | nil => rfl
  | cons a l ih =>
    cases hpa : p a with
    | true =>
      simp only [List.find?, hpa] at h
      cases h
    | false =>
      simp only [List.find?, hpa] at h ⊢
      exact ih h

theorem find?_append_some {α : Type} (p : α → Bool) (l1 l2 : List α) (a : α)
    (h : l1.find? p = some a) : (l1 ++ l2).find? p = some a := by
  induction l1 with
  | nil => cases h
  | cons b l ih =>
    cases hpb : p b with
    | true =>
      simp only [List.find?, hpb] at h ⊢
      exact h
    | false =>
      simp only [List.find?, hpb] at h ⊢
      exact ih h

theorem record_get_eq_find (r : Record) (k : String) :
    Record.get r k = ((r.find? (fun p => p.1 == k)).map Prod.snd).getD (some "") := by
  rw [Record.get]
  cases r.find? (fun p => p.1 == k) <;> rfl

/-- A dict write changes exactly the written key (`get` after `set`). -/
theorem Record.get_set (r : Record) (kh k2 : String) (v : Option String) :
    Record.get (Record.set r kh v) k2 = if k2 = kh then v else Record.get r k2 := by
  rw [Record.set]
  by_cases hany : r.any (fun p => p.1 == kh) = true
  · rw [if_pos hany, record_get_eq_find, List.find?_map]
    have hcomp : ((fun p : String × Option String => p.1 == k2) ∘
        (fun p => if p.1 == kh then (p.1, v) else p)) = fun p => p.1 == k2 := by
      funext p
      show (((if p.1 == kh then (p.1, v) else p) : String × Option String).1 == k2) = _
      split <;> rfl
    rw [hcomp]
    by_cases hk : k2 = kh
    · subst hk
      rw [if_pos rfl]
      obtain ⟨p0, hp0mem, hp0⟩ := List.any_eq_true.1 hany
      cases hf : r.find? (fun p => p.1 == k2) with
      | none =>
        rw [List.find?_eq_none] at hf
        exact absurd hp0 (hf p0 hp0mem)
      | some p1 =>
        have hp1 := List.find?_some hf
        show ((some (if p1.1 == k2 then (p1.1, v) else p1)).map Prod.snd).getD (some "") = v
        rw [if_pos hp1]
        rfl
    · rw [if_neg hk]
      cases hf : r.find? (fun p => p.1 == k2) with
      | none =>
        rw [record_get_eq_find, hf]
        rfl
      | some p1 =>
        have hp1 := List.find?_some hf
        rw [beq_iff_eq] at hp1
        have hne : (p1.1 == kh) = false := by
          rw [beq_eq_false_iff_ne, hp1]
          exact fun hc => hk hc
        show ((some (if p1.1 == kh then (p1.1, v) else p1)).map Prod.snd).getD (some "") = _
        rw [if_neg (fun hc => by rw [hne] at hc; exact Bool.noConfusion hc)]
        rw [record_get_eq_find, hf]
  · rw [if_neg hany]
    have hnone : r.find? (fun p => p.1 == kh) = none := by
      rw [List.find?_eq_none]
      intro p hp hc
      exact hany (List.any_eq_true.2 ⟨p, hp, hc⟩)
    by_cases hk : k2 = kh
    · subst hk
      rw [if_pos rfl, record_get_eq_find, find?_append_none _ _ _ hnone]
      show ((List.find? (fun p => p.1 == k2) [(k2, v)]).map Prod.snd).getD (some "") = v
      simp only [List.find?, beq_self_eq_true]
      rfl
    · rw [if_neg hk, record_get_eq_find]
      cases hf : r.find? (fun p => p.1 == k2) with
      | none =>
        rw [find?_append_none _ _ _ hf]
        have hone : (([(kh, v)] : Record).find? (fun p => p.1 == k2)) = none := by
          rw [List.find?_eq_none]
          intro p hp hc
          simp only [List.mem_singleton] at hp
          subst hp
          rw [beq_iff_eq] at hc
          exact hk (hc ▸ rfl)
        rw [hone, record_get_eq_find, hf]
      | some p1 =>
        rw [find?_append_some _ _ _ _ hf, record_get_eq_find, hf]

/-- The grid cell addressed by data-row index `i` and header name `hname`. -/
def getCell (records : List Record) (i : Nat) (hname : String) : Option String :=
  Record.get (records.getD i []) hname

theorem getD_set_self {α : Type} (l : List α) (i : Nat) (v d : α) (h : i < l.length) :
    (l.set i v).getD i d = v := by
  show ((l.set i v).get? i).getD d = v
  rw [List.get?_set_eq_of_lt v h]
  rfl

theorem getD_set_ne {α : Type} (l : List α) (i j : Nat) (v d : α) (h : i ≠ j) :
    (l.set i v).getD j d = l.getD j d := by
  show ((l.set i v).get? j).getD d = (l.get? j).getD d
  rw [List.get?_set_ne v l h]

theorem pyGet_nonneg {α : Type} (xs : List α) (c : Int) (d : α) (h0 : 0 ≤ c)
    (h1 : c < (xs.length : Int)) : pyGet xs c = some (xs.getD c.toNat d) := by
  rw [pyGet]
  simp only [if_neg (not_lt.2 h0), if_pos h0]
  exact getD_get? xs c.toNat d (by omega)

theorem applyResult_fst (headers : List String) (records : List Record) (n m : Nat)
    (res : Int × Int × Option String) :
    (applyResult headers (records, n) res).1 = (applyResult headers (records, m) res).1 := by
  rw [applyResult, applyResult]
  dsimp only
  split_ifs with h1 h2 <;> first
    | rfl
    | (cases pyGet headers res.2.1 <;> rfl)

theorem update_json_fold_fst (headers : List String) (results : List (Int × Int × Option String)) :
    ∀ (records : List Record) (n m : Nat),
      ((results.foldl (applyResult headers) (records, n)).1) =
      ((results.foldl (applyResult headers) (records, m)).1) := by
  induction results with
  | nil => intro records n m; rfl
  | cons res rs ih =>
    intro records n m
    rw [List.foldl_cons, List.foldl_cons]
    have hfst := applyResult_fst headers records n m res
    rcases han : applyResult headers (records, n) res with ⟨recs2, n2⟩
    rcases ham : applyResult headers (records, m) res with ⟨recs3, m2⟩
    rw [han, ham] at hfst
    dsimp only at hfst
    rw [hfst]
    exact ih recs3 n2 m2

theorem applyResult_length (headers : List String) (acc : List Record × Nat)
    (res : Int × Int × Option String) :
    ((applyResult headers acc res).1).length = acc.1.length := by
  rw [applyResult]
  split_ifs with h1 h2
  · cases pyGet headers res.2.1 with
    | none => rfl
    | some header => exact List.length_set acc.1 _ _
  · rfl
  · rfl

theorem update_json_length (headers : List String)
    (results : List (Int × Int × Option String)) :
    ∀ acc : List Record × Nat,
      ((results.foldl (applyResult headers) acc).1).length = acc.1.length := by
  induction results with
  | nil => intro acc; rfl
  | cons res rs ih =>
    intro acc
    rw [List.foldl_cons, ih (applyResult headers acc res), applyResult_length]

theorem applyResult_cell (headers : List String) (acc : List Record × Nat)
    (res : Int × Int × Option String) (i : Nat) (hname : String) :
    getCell (applyResult headers acc res).1 i hname = getCell acc.1 i hname ∨
    (∃ s, res.2.2 = some s ∧ s ≠ "" ∧ 0 ≤ res.1 - 2 ∧ (res.1 - 2).toNat = i ∧
      pyGet headers res.2.1 = some hname ∧
      getCell (applyResult headers acc res).1 i hname = some s) := by
  rw [applyResult]
  split_ifs with h1 h2
  · cases hg : pyGet headers res.2.1 with
    | none => left; rfl
    | some header =>
      by_cases hrow : (res.1 - 2).toNat = i
      · by_cases hcol : hname = header
        · right
          obtain ⟨s, hs, hsne⟩ := (truthy_iff _).1 h1
          refine ⟨s, hs, hsne, h2.1, hrow, by rw [hcol], ?_⟩
          rw [getCell]
          dsimp only
          rw [← hrow, getD_set_self _ _ _ _ (by omega), Record.get_set, if_pos hcol, hs]
        · left
          rw [getCell, getCell]
          dsimp only
          rw [← hrow, getD_set_self _ _ _ _ (by omega), Record.get_set, if_neg hcol]
      · left
        rw [getCell, getCell]
        dsimp only
        rw [getD_set_ne _ _ _ _ _ hrow]
  · left; rfl
  · left; rfl

theorem update_cell_evolution (headers : List String)
    (results : List (Int × Int × Option String)) :
    ∀ (acc : List Record × Nat) (i : Nat) (hname : String),
      getCell ((results.foldl (applyResult headers) acc).1) i hname =
        getCell acc.1 i hname ∨
      ∃ r c s, (r, c, some s) ∈ results ∧ s ≠ "" ∧ 0 ≤ r - 2 ∧ (r - 2).toNat = i ∧
        pyGet headers c = some hname ∧
        getCell ((results.foldl (applyResult headers) acc).1) i hname = some s := by
  induction results with
  | nil =>
    intro acc i hname
    left
    rfl
  | cons res rs ih =>
    intro acc i hname
    rw [List.foldl_cons]
    rcases ih (applyResult headers acc res) i hname with
      hsame | ⟨r, c, s, hmem, hsne, hr0, hri, hpg, hval⟩
    · rcases applyResult_cell headers acc res i hname with
        h0 | ⟨s, hs, hsne, hr0, hri, hpg, hval⟩
      · left
        rw [hsame, h0]
      · right
        refine ⟨res.1, res.2.1, s, ?_, hsne, hr0, hri, hpg, by rw [hsame]; exact hval⟩
        rw [← hs]
        exact List.mem_cons_self res rs
    · right
      exact ⟨r, c, s, List.mem_cons_of_mem res hmem, hsne, hr0, hri, hpg, hval⟩

theorem update_keeps (headers : List String) (P : String → Prop)
    (results : List (Int × Int × Option String)) (acc : List Record × Nat) (i : Nat)
    (hname : String)
    (hall : ∀ r c s, (r, c, some s) ∈ results → s ≠ "" → P s)
    (hstart : ∃ s, getCell acc.1 i hname = some s ∧ s ≠ "" ∧ P s) :
    ∃ s, getCell ((results.foldl (applyResult headers) acc).1) i hname = some s ∧
      s ≠ "" ∧ P s := by
  rcases update_cell_evolution headers results acc i hname with
    hsame | ⟨r, c, s, hmem, hsne, _, _, _, hval⟩
  · obtain ⟨s, hs, hsne, hP⟩ := hstart
    exact ⟨s, by rw [hsame]; exact hs, hsne, hP⟩
  · exact ⟨s, hval, hsne, hall r c s hmem hsne⟩

theorem update_falsy (headers : List String) (results : List (Int × Int × Option String))
    (acc : List Record × Nat) (i : Nat) (hname : String)
    (h : truthy (getCell ((results.foldl (applyResult headers) acc).1) i hname) = false) :
    getCell ((results.foldl (applyResult headers) acc).1) i hname =
      getCell acc.1 i hname := by
  rcases update_cell_evolution headers results acc i hname with
    hsame | ⟨r, c, s, _, hsne, _, _, _, hval⟩
  · exact hsame
  · rw [hval] at h
    have : s = "" := by simpa [truthy] using h
    exact absurd this hsne

theorem update_writes (headers : List String) (P : String → Prop)
    (results : List (Int × Int × Option String)) :
    ∀ (acc : List Record × Nat) (r c : Int) (s : String),
      (r, c, some s) ∈ results → s ≠ "" →
      (∀ r2 c2 s2, (r2, c2, some s2) ∈ results → s2 ≠ "" → P s2) →
      0 ≤ r - 2 → r - 2 < (acc.1.length : Int) → 0 ≤ c → c < (headers.length : Int) →
      ∃ s2, getCell ((results.foldl (applyResult headers) acc).1) (r - 2).toNat
          (headers.getD c.toNat "") = some s2 ∧ s2 ≠ "" ∧ P s2 := by
  induction results with
  | nil =>
    intro acc r c s hmem
    cases hmem
  | cons res rs ih =>
    intro acc r c s hmem hsne hall h1 h2 h3 h4
    rw [List.foldl_cons]
    rcases List.mem_cons.1 hmem with heq | hmem2
    · have hcell : getCell (applyResult headers acc res).1 (r - 2).toNat
          (headers.getD c.toNat "") = some s := by
        subst heq
        rw [applyResult]
        dsimp only
        rw [if_pos (by simp [truthy, hsne]), if_pos ⟨h1, h2, h4⟩,
          pyGet_nonneg headers c "" h3 h4]
        rw [getCell]
        dsimp only
        rw [getD_set_self _ _ _ _ (by omega), Record.get_set, if_pos rfl]
      apply update_keeps headers P rs _ _ _
        (fun r2 c2 s2 hm hs2 => hall r2 c2 s2 (List.mem_cons_of_mem _ hm) hs2)
      exact ⟨s, hcell, hsne, hall r c s hmem hsne⟩
    · apply ih (applyResult headers acc res) r c s hmem2 hsne
        (fun r2 c2 s2 hm hs2 => hall r2 c2 s2 (List.mem_cons_of_mem _ hm) hs2) h1 ?_ h3 h4
      rw [applyResult_length]
      exact h2

/-- One iteration of the `update_checkpoint` loop. -/
def cpStep (acc : Checkpoint × Bool) (res : Int × Int × Option String) : Checkpoint × Bool :=
  if truthy res.2.2 then (dictInsert acc.1 (keyOfInt res.1 res.2.1), true) else acc

theorem update_checkpoint_eq (cp : Checkpoint) (results : List (Int × Int × Option String)) :
    update_checkpoint cp results = results.foldl cpStep (cp, false) := rfl

theorem dictInsert_mem (cp : Checkpoint) (k k2 : String) :
    k ∈ dictInsert cp k2 ↔ k ∈ cp ∨ k = k2 := by
  rw [dictInsert]
  split_ifs with h
  · constructor
    · exact Or.inl
    · rintro (h1 | rfl)
      · exact h1
      · exact h
  · rw [List.mem_append, List.mem_singleton]

theorem cpStep_fold_mem (results : List (Int × Int × Option String)) :
    ∀ (acc : Checkpoint × Bool) (k : String),
      k ∈ (results.foldl cpStep acc).1 ↔
        k ∈ acc.1 ∨ ∃ r c s, (r, c, some s) ∈ results ∧ s ≠ "" ∧ k = keyOfInt r c := by
  induction results with
  | nil =>
    intro acc k
    simp
  | cons res rs ih =>
    intro acc k
    rw [List.foldl_cons]
    by_cases ht : truthy res.2.2 = true
    · rw [show cpStep acc res = (dictInsert acc.1 (keyOfInt res.1 res.2.1), true) from by
        rw [cpStep, if_pos ht]]
      rw [ih]
      dsimp only
      rw [dictInsert_mem]
      constructor
      · rintro ((h1 | rfl) | ⟨r, c, s, hm, hs, rfl⟩)
        · exact Or.inl h1
        · right
          obtain ⟨s, hs, hsne⟩ := (truthy_iff _).1 ht
          refine ⟨res.1, res.2.1, s, ?_, hsne, rfl⟩
          rw [← hs]
          exact List.mem_cons_self res rs
        · exact Or.inr ⟨r, c, s, List.mem_cons_of_mem _ hm, hs, rfl⟩
      · rintro (h1 | ⟨r, c, s, hm, hs, rfl⟩)
        · exact Or.inl (Or.inl h1)
        · rcases List.mem_cons.1 hm with heq | hm2
          · left
            right
            rw [← heq]
          · exact Or.inr ⟨r, c, s, hm2, hs, rfl⟩
    · rw [show cpStep acc res = acc from by rw [cpStep, if_neg ht]]
      rw [ih]
      constructor
      · rintro (h1 | ⟨r, c, s, hm, hs, rfl⟩)
        · exact Or.inl h1
        · exact Or.inr ⟨r, c, s, List.mem_cons_of_mem _ hm, hs, rfl⟩
      · rintro (h1 | ⟨r, c, s, hm, hs, rfl⟩)
        · exact Or.inl h1
        · rcases List.mem_cons.1 hm with heq | hm2
          · exfalso
            rw [← heq] at ht
            exact ht (by simp [truthy, hs])
          · exact Or.inr ⟨r, c, s, hm2, hs, rfl⟩

theorem update_checkpoint_mem (cp : Checkpoint) (results : List (Int × Int × Option String))
    (k : String) :
    k ∈ (update_checkpoint cp results).1 ↔
      k ∈ cp ∨ ∃ r c s, (r, c, some s) ∈ results ∧ s ≠ "" ∧ k = keyOfInt r c := by
  rw [update_checkpoint_eq, cpStep_fold_mem]

theorem cpStep_fst (acc : Checkpoint × Bool) (res : Int × Int × Option String) :
    (cpStep acc res).1 =
      if truthy res.2.2 then dictInsert acc.1 (keyOfInt res.1 res.2.1) else acc.1 := by
  rw [cpStep]
  split_ifs <;> rfl

theorem cpStep_fold_fst (results : List (Int × Int × Option String)) :
    ∀ (cp : Checkpoint) (b1 b2 : Bool),
      ((results.foldl cpStep (cp, b1)).1) = ((results.foldl cpStep (cp, b2)).1) := by
  induction results with
  | nil => intro cp b1 b2; rfl
  | cons res rs ih =>
    intro cp b1 b2
    rw [List.foldl_cons, List.foldl_cons]
    have hfst : (cpStep (cp, b1) res).1 = (cpStep (cp, b2) res).1 := by
      rw [cpStep_fst, cpStep_fst]
    rcases han : cpStep (cp, b1) res with ⟨cp2, f2⟩
    rcases ham : cpStep (cp, b2) res with ⟨cp3, f3⟩
    rw [han, ham] at hfst
    dsimp only at hfst
    rw [hfst]
    exact ih cp3 f2 f3

theorem update_json_append (headers : List String)
    (rs1 rs2 : List (Int × Int × Option String)) (records : List Record) :
    (update_json_data records headers (rs1 ++ rs2)).1 =
    (update_json_data (update_json_data records headers rs1).1 headers rs2).1 := by
  rw [update_json_data, update_json_data, update_json_data, List.foldl_append]
  rcases h1 : rs1.foldl (applyResult headers) (records, 0) with ⟨recs1, n1⟩
  dsimp only
  exact update_json_fold_fst headers rs2 recs1 n1 0

theorem update_cp_append (cp : Checkpoint)
    (rs1 rs2 : List (Int × Int × Option String)) :
    (update_checkpoint cp (rs1 ++ rs2)).1 =
    (update_checkpoint (update_checkpoint cp rs1).1 rs2).1 := by
  rw [update_checkpoint_eq, update_checkpoint_eq, update_checkpoint_eq, List.foldl_append]
  rcases h1 : rs1.foldl cpStep (cp, false) with ⟨cp1, f1⟩
  dsimp only
  exact cpStep_fold_fst rs2 cp1 f1 false

theorem chunksAux_flatten {α : Type} (n : Nat) (hn : 0 < n) :
    ∀ (fuel : Nat) (l : List α), l.length ≤ fuel → (chunksAux n fuel l).flatten = l := by
  intro fuel
  induction fuel with
  | zero =>
    intro l hl
    have hnil : l = [] := List.length_eq_zero.1 (by omega)
    subst hnil
    rfl
  | succ fuel ih =>
    intro l hl
    rw [chunksAux]
    by_cases he : l.isEmpty = true
    · rw [if_pos he]
      rw [List.isEmpty_iff] at he
      rw [he]
      rfl
    · rw [if_neg he]
      have hlen : 0 < l.length := by
        cases l with
        | nil => exact absurd rfl he
        | cons a l => simp
      rw [List.flatten_cons, ih (l.drop n) (by rw [List.length_drop]; omega)]
      exact List.take_append_drop n l

theorem chunks_flatten {α : Type} (n : Nat) (hn : 0 < n) (l : List α) :
    (chunks n l).flatten = l :=
  chunksAux_flatten n hn l.length l le_rfl

theorem batch_fold_eq (headers : List String) :
    ∀ (C : List (List (Int × Int × Option String))) (recs : List Record) (cp : Checkpoint),
      (C.foldl (fun acc batch => ((update_json_data acc.1 headers batch).1,
        (update_checkpoint acc.2 batch).1)) (recs, cp)) =
      ((update_json_data recs headers C.flatten).1,
       (update_checkpoint cp C.flatten).1) := by
  intro C
  induction C with
  | nil =>
    intro recs cp
    rfl
  | cons b C ih =>
    intro recs cp
    rw [List.foldl_cons, List.flatten_cons, update_json_append, update_cp_append]
    exact ih (update_json_data recs headers b).1 (update_checkpoint cp b).1

/-- The batch loop composed: a full `batch_process_parallel` run equals one
grid update and one ledger update over the concatenated results. -/
theorem batch_process_eq (oracle : Nat → Nat → String → String → Option String)
    (headers : List String) (records : List Record) (cp : Checkpoint) (bottom_up : Bool) :
    batch_process_parallel oracle headers records cp bottom_up =
      ((update_json_data records headers
          ((find_missing_cells headers records
              (reconcile_checkpoint records headers cp).1 bottom_up).map
            (fun t => ((t.1 : Int), (t.2.1 : Int),
              oracle t.1 t.2.1 t.2.2.1 t.2.2.2)))).1,
       (update_checkpoint (reconcile_checkpoint records headers cp).1
          ((find_missing_cells headers records
              (reconcile_checkpoint records headers cp).1 bottom_up).map
            (fun t => ((t.1 : Int), (t.2.1 : Int),
              oracle t.1 t.2.1 t.2.2.1 t.2.2.2)))).1) := by
  show (chunks BATCH_SIZE ((find_missing_cells headers records
      (reconcile_checkpoint records headers cp).1 bottom_up).map
        (fun t => ((t.1 : Int), (t.2.1 : Int),
          oracle t.1 t.2.1 t.2.2.1 t.2.2.2)))).foldl
      (fun acc batch => ((update_json_data acc.1 headers batch).1,
        (update_checkpoint acc.2 batch).1))
      (records, (reconcile_checkpoint records headers cp).1) = _
  rw [batch_fold_eq, chunks_flatten BATCH_SIZE (by decide)]

theorem update_json_data_eq (records : List Record) (headers : List String)
    (results : List (Int × Int × Option String)) :
    update_json_data records headers results =
      results.foldl (applyResult headers) (records, 0) := rfl

/-- The ledger/grid consistency invariant: every ledger key that parses as
two in-range integers addresses a grid cell holding a non-empty value. -/
def cpInvB (headers : List String) (records : List Record) (cp : Checkpoint) : Bool :=
  cp.all (fun k =>
    match parseKey k with
    | none => true
    | some (r, c) =>
      if 0 ≤ r - 2 ∧ r - 2 < (records.length : Int) ∧ 0 ≤ c ∧ c < (headers.length : Int)
      then truthy (getCell records (r - 2).toNat (headers.getD c.toNat ""))
      else true)

theorem pyStrip_empty : pyStrip "" = "" := rfl

theorem cpInvB_reconcile (headers : List String) (records : List Record)
    (cp : Checkpoint) :
    cpInvB headers records (reconcile_checkpoint records headers cp).1 = true := by
  rw [cpInvB, List.all_eq_true]
  intro k hk
  have hns := ((reconcile_mem records headers cp k).1 hk).2
  cases hp : parseKey k with
  | none => rfl
  | some rc =>
    obtain ⟨r, c⟩ := rc
    show (if 0 ≤ r - 2 ∧ r - 2 < (records.length : Int) ∧ 0 ≤ c ∧
        c < (headers.length : Int)
      then truthy (getCell records (r - 2).toNat (headers.getD c.toNat ""))
      else true) = true
    by_cases hin : 0 ≤ r - 2 ∧ r - 2 < (records.length : Int) ∧ 0 ≤ c ∧
        c < (headers.length : Int)
    · rw [if_pos hin]
      have hce : ¬ cellEmptyProp
          (Record.get (records.getD (r - 2).toNat []) (headers.getD c.toNat "")) := by
        intro hd
        have hsp : staleSpec records headers k :=
          ⟨r, c, hp, Or.inr (Or.inr (Or.inr (Or.inr hd)))⟩
        rw [← staleKey_iff, hns] at hsp
        exact Bool.noConfusion hsp
      cases hv : Record.get (records.getD (r - 2).toNat []) (headers.getD c.toNat "") with
      | none => exact absurd (Or.inl hv) hce
      | some s =>
        show truthy (Record.get (records.getD (r - 2).toNat [])
          (headers.getD c.toNat "")) = true
        rw [hv]
        simp only [truthy, decide_eq_true_eq]
        intro heq
        exact hce (Or.inr ⟨s, hv, by rw [heq]; exact pyStrip_empty⟩)
    · rw [if_neg hin]

/-- C2: immediately after reconciliation the ledger/grid invariant holds,
it is preserved by every batch's grid update followed by its ledger update,
and the ledger only ever gains marks for results whose text is non-empty. -/
theorem claim_C2_marked_cells_nonempty (headers : List String) (records : List Record)
    (cp : Checkpoint) (results : List (Int × Int × Option String))
    (hinv : cpInvB headers records cp = true) :
    cpInvB headers records (reconcile_checkpoint records headers cp).1 = true ∧
    cpInvB headers (update_json_data records headers results).1
      (update_checkpoint cp results).1 = true ∧
    (∀ k, k ∈ (update_checkpoint cp results).1 →
      k ∈ cp ∨ ∃ r c s, (r, c, some s) ∈ results ∧ s ≠ "" ∧ k = keyOfInt r c) := by
  refine ⟨cpInvB_reconcile headers records cp, ?_, ?_⟩
  · have hlen : ((update_json_data records headers results).1).length = records.length := by
      rw [update_json_data_eq]
      exact update_json_length headers results (records, 0)
    rw [cpInvB, List.all_eq_true]
    intro k hk
    rcases (update_checkpoint_mem cp results k).1 hk with hold | ⟨r, c, s, hmem, hsne, rfl⟩
    · rw [cpInvB, List.all_eq_true] at hinv
      have hcond := hinv k hold
      cases hp : parseKey k with
      | none => rfl
      | some rc =>
        obtain ⟨r, c⟩ := rc
        rw [hp] at hcond
        have hcond2 : (if 0 ≤ r - 2 ∧ r - 2 < (records.length : Int) ∧ 0 ≤ c ∧
            c < (headers.length : Int)
          then truthy (getCell records (r - 2).toNat (headers.getD c.toNat ""))
          else true) = true := hcond
        show (if 0 ≤ r - 2 ∧
            r - 2 < (((update_json_data records headers results).1).length : Int) ∧
            0 ≤ c ∧ c < (headers.length : Int)
          then truthy (getCell (update_json_data records headers results).1
            (r - 2).toNat (headers.getD c.toNat ""))
          else true) = true
        by_cases hin : 0 ≤ r - 2 ∧
            r - 2 < (((update_json_data records headers results).1).length : Int) ∧
            0 ≤ c ∧ c < (headers.length : Int)
        · rw [if_pos hin]
          rw [hlen] at hin
          rw [if_pos hin] at hcond2
          obtain ⟨s, hs, hsne⟩ := (truthy_iff _).1 hcond2
          obtain ⟨s2, hval, hs2ne, _⟩ := update_keeps headers (fun _ => True) results
            (records, 0) (r - 2).toNat (headers.getD c.toNat "")
            (fun _ _ _ _ _ => trivial) ⟨s, hs, hsne, trivial⟩
          rw [update_json_data_eq, hval]
          simp [truthy, hs2ne]
        · rw [if_neg hin]
    · cases hp : parseKey (keyOfInt r c) with
      | none => rfl
      | some rc2 =>
        obtain ⟨r2, c2⟩ := rc2
        rw [parseKey_keyOfInt] at hp
        by_cases hnn : 0 ≤ r ∧ 0 ≤ c
        · rw [if_pos hnn] at hp
          have hr2 : r = r2 := congrArg Prod.fst (Option.some.inj hp)
          have hc2 : c = c2 := congrArg Prod.snd (Option.some.inj hp)
          subst hr2
          subst hc2
          show (if 0 ≤ r - 2 ∧
              r - 2 < (((update_json_data records headers results).1).length : Int) ∧
              0 ≤ c ∧ c < (headers.length : Int)
            then truthy (getCell (update_json_data records headers results).1
              (r - 2).toNat (headers.getD c.toNat ""))
            else true) = true
          by_cases hin : 0 ≤ r - 2 ∧
              r - 2 < (((update_json_data records headers results).1).length : Int) ∧
              0 ≤ c ∧ c < (headers.length : Int)
          · rw [if_pos hin]
            rw [hlen] at hin
            obtain ⟨s2, hval, hs2ne, _⟩ := update_writes headers (fun _ => True) results
              (records, 0) r c s hmem hsne (fun _ _ _ _ _ => trivial)
              hin.1 hin.2.1 hin.2.2.1 hin.2.2.2
            rw [update_json_data_eq, hval]
            simp [truthy, hs2ne]
          · rw [if_neg hin]
        · rw [if_neg hnn] at hp
          cases hp
  · intro k hk
    exact (update_checkpoint_mem cp results k).1 hk

/-- Witness for C2 at a concrete grid, ledger, and batch result. -/
theorem claim_C2_witness :
    cpInvB ["T", "S"] [[("T", some "A")]]
      (reconcile_checkpoint [[("T", some "A")]] ["T", "S"] ["9-9"]).1 = true ∧
    cpInvB ["T", "S"]
      (update_json_data [[("T", some "A")]] ["T", "S"] [((2 : Int), (1 : Int), some "hi")]).1
      (update_checkpoint ["9-9"] [((2 : Int), (1 : Int), some "hi")]).1 = true ∧
    (∀ k, k ∈ (update_checkpoint ["9-9"] [((2 : Int), (1 : Int), some "hi")]).1 →
      k ∈ ["9-9"] ∨ ∃ r c s, (r, c, some s) ∈ [((2 : Int), (1 : Int), some "hi")] ∧
        s ≠ "" ∧ k = keyOfInt r c) :=
  claim_C2_marked_cells_nonempty ["T", "S"] [[("T", some "A")]] ["9-9"]
    [((2 : Int), (1 : Int), some "hi")] (by decide)

theorem find_missing_cells_mem_any (headers : List String) (records : List Record)
    (cp : Checkpoint) (b : Bool) (x : CellTask) :
    x ∈ find_missing_cells headers records cp b ↔
      x ∈ find_missing_cells_fwd headers records cp := by
  cases b <;> simp [find_missing_cells]

theorem reconcile_subset (records : List Record) (headers : List String)
    (cp : Checkpoint) (k : String) (hk : k ∈ (reconcile_checkpoint records headers cp).1) :
    k ∈ cp := ((reconcile_mem records headers cp k).1 hk).1

/-- C5: if every task discovered in a run succeeds with a stripped non-empty
text, then after the run the ledger reconciles cleanly with no entry removed
and no save, discovery finds no task, and a second full run returns the
records and ledger unchanged. -/
theorem claim_C5_second_run_noop (oracle : Nat → Nat → String → String → Option String)
    (headers : List String) (records : List Record) (cp : Checkpoint) (bottom_up : Bool)
    (hsucc : ∀ t ∈ find_missing_cells headers records
        (reconcile_checkpoint records headers cp).1 bottom_up,
      ∃ s, oracle t.1 t.2.1 t.2.2.1 t.2.2.2 = some s ∧ pyStrip s ≠ "") :
    reconcile_checkpoint (batch_process_parallel oracle headers records cp bottom_up).1
        headers (batch_process_parallel oracle headers records cp bottom_up).2 =
      ((batch_process_parallel oracle headers records cp bottom_up).2, false) ∧
    find_missing_cells headers
      (batch_process_parallel oracle headers records cp bottom_up).1
      (batch_process_parallel oracle headers records cp bottom_up).2 bottom_up = [] ∧
    batch_process_parallel oracle headers
      (batch_process_parallel oracle headers records cp bottom_up).1
      (batch_process_parallel oracle headers records cp bottom_up).2 bottom_up =
      ((batch_process_parallel oracle headers records cp bottom_up).1,
       (batch_process_parallel oracle headers records cp bottom_up).2) := by
  set cp1 := (reconcile_checkpoint records headers cp).1 with hcp1
  set tasks := find_missing_cells headers records cp1 bottom_up with htasks
  set results := tasks.map
    (fun t => ((t.1 : Int), (t.2.1 : Int), oracle t.1 t.2.1 t.2.2.1 t.2.2.2)) with hresults
  set R2 := (update_json_data records headers results).1 with hR2
  set C2 := (update_checkpoint cp1 results).1 with hC2
  have hbp : batch_process_parallel oracle headers records cp bottom_up = (R2, C2) := by
    rw [hR2, hC2, hresults, htasks, hcp1]
    exact batch_process_eq oracle headers records cp bottom_up
  have hlen : R2.length = records.length := by
    rw [hR2, update_json_data_eq]
    exact update_json_length headers results (records, 0)
  have hall : ∀ r c s, (r, c, some s) ∈ results → s ≠ "" → pyStrip s ≠ "" := by
    intro r c s hm _
    obtain ⟨t, ht, heq⟩ := List.mem_map.1 hm
    obtain ⟨s0, hos, hstrip⟩ := hsucc t ht
    have hsome : oracle t.1 t.2.1 t.2.2.1 t.2.2.2 = some s :=
      congrArg (fun x : Int × Int × Option String => x.2.2) heq
    rw [hos] at hsome
    rw [← Option.some.inj hsome]
    exact hstrip
  -- every key of the post-run ledger is non-stale in the post-run grid
  have hstale : ∀ k ∈ C2, staleKey R2 headers k = false := by
    intro k hk
    rw [hC2] at hk
    rcases (update_checkpoint_mem cp1 results k).1 hk with hold | ⟨r, c, s, hmem, hsne, rfl⟩
    · -- a key that survived the pre-run reconciliation
      have holds : staleKey records headers k = false := by
        rw [hcp1] at hold
        exact ((reconcile_mem records headers cp k).1 hold).2
      rw [staleKey]
      cases hp : parseKey k with
      | none => rfl
      | some rc =>
        obtain ⟨r, c⟩ := rc
        have hnotsp : ¬ staleSpec records headers k := by
          intro hsp
          have h2 := (staleKey_iff records headers k).2 hsp
          rw [holds] at h2
          exact Bool.noConfusion h2
        have hb1 : ¬ (r - 2 < 0) := fun hb => hnotsp ⟨r, c, hp, Or.inl hb⟩
        have hb2 : ¬ ((records.length : Int) ≤ r - 2) :=
          fun hb => hnotsp ⟨r, c, hp, Or.inr (Or.inl hb)⟩
        have hb3 : ¬ (c < 0) := fun hb => hnotsp ⟨r, c, hp, Or.inr (Or.inr (Or.inl hb))⟩
        have hb4 : ¬ ((headers.length : Int) ≤ c) :=
          fun hb => hnotsp ⟨r, c, hp, Or.inr (Or.inr (Or.inr (Or.inl hb)))⟩
        have hce : ¬ cellEmptyProp
            (Record.get (records.getD (r - 2).toNat []) (headers.getD c.toNat "")) :=
          fun hd => hnotsp ⟨r, c, hp, Or.inr (Or.inr (Or.inr (Or.inr hd)))⟩
        show (if r - 2 < 0 ∨ (R2.length : Int) ≤ r - 2 then true
          else if c < 0 ∨ (headers.length : Int) ≤ c then true
          else match Record.get (R2.getD (r - 2).toNat []) (headers.getD c.toNat "") with
            | none => true
            | some s => decide (pyStrip s = "")) = false
        rw [if_neg (fun hor => by rw [hlen] at hor; exact hor.elim hb1 hb2)]
        rw [if_neg (fun hor => hor.elim hb3 hb4)]
        obtain ⟨s, hv, hps⟩ : ∃ s, Record.get (records.getD (r - 2).toNat [])
            (headers.getD c.toNat "") = some s ∧ pyStrip s ≠ "" := by
          cases hv : Record.get (records.getD (r - 2).toNat [])
              (headers.getD c.toNat "") with
          | none => exact absurd (Or.inl hv) hce
          | some s =>
            exact ⟨s, rfl, fun heq => hce (Or.inr ⟨s, hv, heq⟩)⟩
        have hsne : s ≠ "" := fun he => hps (by rw [he]; exact pyStrip_empty)
        obtain ⟨s2, hval, hs2ne, hs2p⟩ := update_keeps headers (fun x => pyStrip x ≠ "")
          results (records, 0) (r - 2).toNat (headers.getD c.toNat "") hall ⟨s, hv, hsne, hps⟩
        have hval2 : Record.get (R2.getD (r - 2).toNat [])
            (headers.getD c.toNat "") = some s2 := by
          rw [hR2, update_json_data_eq]
          exact hval
        rw [hval2]
        simp only [decide_eq_false_iff_not]
        exact hs2p
    · -- a key marked during this run
      obtain ⟨t, ht, heq⟩ := List.mem_map.1 hmem
      have hr : (t.1 : Int) = r :=
        congrArg (fun x : Int × Int × Option String => x.1) heq
      have hcc : (t.2.1 : Int) = c :=
        congrArg (fun x : Int × Int × Option String => x.2.1) heq
      have hor : oracle t.1 t.2.1 t.2.2.1 t.2.2.2 = some s :=
        congrArg (fun x : Int × Int × Option String => x.2.2) heq
      have htf : (t.1, t.2.1, t.2.2.1, t.2.2.2) ∈
          find_missing_cells_fwd headers records cp1 := by
        have := (find_missing_cells_mem_any headers records cp1 bottom_up t).1 (by
          rw [htasks] at ht
          exact ht)
        exact this
      obtain ⟨ri, hgets, hlenri, hrr, ⟨h0, hh0, hterm, htne⟩, hcq, h1c, hhne, hkey, hcellf⟩ :=
        (find_fwd_mem headers records cp1 t.1 t.2.1 t.2.2.1 t.2.2.2).1 htf
      obtain ⟨hclen, _⟩ := get?_some_getD headers t.2.1 t.2.2.2 "" hcq
      have hps : pyStrip s ≠ "" := hall r c s hmem hsne
      obtain ⟨s2, hval, hs2ne, hs2p⟩ := update_writes headers (fun x => pyStrip x ≠ "")
        results (records, 0) r c s hmem hsne hall
        (by omega) (by rw [← hr, hrr]; push_cast; omega) (by omega)
        (by rw [← hcc]; exact_mod_cast hclen)
      rw [staleKey, parseKey_keyOfInt, if_pos ⟨by omega, by omega⟩]
      show (if r - 2 < 0 ∨ (R2.length : Int) ≤ r - 2 then true
        else if c < 0 ∨ (headers.length : Int) ≤ c then true
        else match Record.get (R2.getD (r - 2).toNat []) (headers.getD c.toNat "") with
          | none => true
          | some s => decide (pyStrip s = "")) = false
      rw [if_neg (fun hor2 => by
        rw [hlen] at hor2
        rcases hor2 with hx | hx
        · omega
        · rw [← hr, hrr] at hx
          push_cast at hx
          omega)]
      rw [if_neg (fun hor2 => by
        rcases hor2 with hx | hx
        · omega
        · rw [← hcc] at hx
          have : (t.2.1 : Int) < (headers.length : Int) := by exact_mod_cast hclen
          omega)]
      have hval2 : Record.get (R2.getD (r - 2).toNat [])
          (headers.getD c.toNat "") = some s2 := by
        rw [hR2, update_json_data_eq]
        exact hval
      rw [hval2]
      simp only [decide_eq_false_iff_not]
      exact hs2p
  have hG1 : reconcile_checkpoint R2 headers C2 = (C2, false) := by
    have hfilter : C2.filter (staleKey R2 headers) = [] :=
      List.filter_eq_nil_iff.2 (fun k hk hkt => by
        rw [hstale k hk] at hkt
        exact Bool.noConfusion hkt)
    show ((C2.filter (staleKey R2 headers)).foldl
        (fun cp k => cp.filter (fun x => x != k)) C2,
      !(C2.filter (staleKey R2 headers)).isEmpty) = (C2, false)
    rw [hfilter]
    rfl
  have hG2 : find_missing_cells headers R2 C2 bottom_up = [] := by
    have hfwd : find_missing_cells_fwd headers R2 C2 = [] := by
      rw [List.eq_nil_iff_forall_not_mem]
      intro x hx
      obtain ⟨xr, xc, xt, xh⟩ := x
      obtain ⟨ri, hgets, hlenri, hrr, ⟨h0, hh0, hterm2, ht2ne⟩, hcq, h1c, hhne, hkey, hcellf⟩ :=
        (find_fwd_mem headers R2 C2 xr xc xt xh).1 hx
      have hlenri0 : ri < records.length := by rw [← hlen]; exact hlenri
      -- the cell is falsy in the new grid, hence it was untouched and falsy before
      have hcellf2 : truthy (getCell ((results.foldl (applyResult headers)
          (records, 0)).1) ri xh) = false := by
        have : (results.foldl (applyResult headers) (records, 0)).1 = R2 := by
          rw [hR2, update_json_data_eq]
        rw [this]
        exact hcellf
      have hcell_old : getCell records ri xh = getCell R2 ri xh := by
        have hu := update_falsy headers results (records, 0) ri xh hcellf2
        have hfold : (results.foldl (applyResult headers) (records, 0)).1 = R2 := by
          rw [hR2, update_json_data_eq]
        rw [hfold] at hu
        exact hu.symm
      have hcellf_old : truthy (getCell records ri xh) = false := by
        rw [hcell_old]
        exact hcellf
      -- the entity-name column of this row was already truthy before the run
      have hterm1 : ∃ t1, Record.get (records.getD ri []) h0 = some t1 ∧ t1 ≠ "" := by
        have hterm2b : getCell ((results.foldl (applyResult headers)
            (records, 0)).1) ri h0 = some xt := by
          have hfold : (results.foldl (applyResult headers) (records, 0)).1 = R2 := by
            rw [hR2, update_json_data_eq]
          rw [hfold]
          exact hterm2
        rcases update_cell_evolution headers results (records, 0) ri h0 with
          hsame | ⟨rw2, cw, sw, hmw, hswne, hrw0, hrwi, _, _⟩
        · rw [hterm2b] at hsame
          exact ⟨xt, hsame.symm, ht2ne⟩
        · -- a write hit row ri, so row ri had a task: its term was truthy
          obtain ⟨tw, htw, heqw⟩ := List.mem_map.1 hmw
          have hrweq : (tw.1 : Int) = rw2 :=
            congrArg (fun x : Int × Int × Option String => x.1) heqw
          have htwf : (tw.1, tw.2.1, tw.2.2.1, tw.2.2.2) ∈
              find_missing_cells_fwd headers records cp1 :=
            (find_missing_cells_mem_any headers records cp1 bottom_up tw).1 (by
              rw [htasks] at htw
              exact htw)
          obtain ⟨riw, _, hlenriw, hrrw, ⟨h0w, hh0w, htermw, htnew⟩, _, _, _, _, _⟩ :=
            (find_fwd_mem headers records cp1 tw.1 tw.2.1 tw.2.2.1 tw.2.2.2).1 htwf
          have hriw : riw = ri := by
            rw [hrrw] at hrweq
            omega
          have hh0eq : h0w = h0 := by
            rw [hh0w] at hh0
            exact Option.some.inj hh0
          subst hriw
          subst hh0eq
          exact ⟨tw.2.2.1, htermw, htnew⟩
      obtain ⟨t1, hterm1v, ht1ne⟩ := hterm1
      -- the address was not in the pre-run ledger either
      have hkey1 : keyOfNat xr xc ∉ cp1 := by
        intro hmem1
        exact hkey ((by
          rw [hC2]
          exact (update_checkpoint_mem cp1 results (keyOfNat xr xc)).2 (Or.inl hmem1)))
      -- so this cell was a task of the first run
      have htask1 : ((ri + 2 : Nat), xc, t1, xh) ∈
          find_missing_cells_fwd headers records cp1 := by
        rw [find_fwd_mem]
        refine ⟨ri, getD_get? records ri [] hlenri0, hlenri0, rfl,
          ⟨h0, hh0, hterm1v, ht1ne⟩, hcq, h1c, hhne, ?_, ?_⟩
        · rw [← hrr]
          exact hkey1
        · exact hcellf_old
      have htask1b : ((ri + 2 : Nat), xc, t1, xh) ∈ tasks := by
        rw [htasks]
        exact (find_missing_cells_mem_any headers records cp1 bottom_up _).2 htask1
      obtain ⟨s, hos, hstrip⟩ := hsucc _ htask1b
      have hsne : s ≠ "" := fun he => hstrip (by rw [he]; exact pyStrip_empty)
      have hresmem : (((ri + 2 : Nat) : Int), ((xc : Nat) : Int), some s) ∈ results := by
        rw [hresults]
        refine List.mem_map.2 ⟨((ri + 2 : Nat), xc, t1, xh), htask1b, ?_⟩
        dsimp only
        rw [hos]
      have hmark : keyOfNat (ri + 2) xc ∈ C2 := by
        rw [hC2]
        exact (update_checkpoint_mem cp1 results _).2
          (Or.inr ⟨_, _, s, hresmem, hsne, rfl⟩)
      rw [← hrr] at hmark
      exact hkey hmark
    rw [find_missing_cells]
    cases bottom_up with
    | false => exact hfwd
    | true =>
      rw [if_pos rfl, hfwd]
      rfl
  refine ⟨?_, ?_, ?_⟩
  · rw [hbp]
    exact hG1
  · rw [hbp]
    exact hG2
  · rw [hbp]
    show batch_process_parallel oracle headers R2 C2 bottom_up = (R2, C2)
    rw [batch_process_eq]
    have hrc : (reconcile_checkpoint R2 headers C2).1 = C2 := by rw [hG1]
    rw [hrc, hG2]
    rfl

/-- Witness for C5 at a concrete one-cell dataset and an always-succeeding
generation oracle. -/
theorem claim_C5_witness :
    reconcile_checkpoint (batch_process_parallel (fun _ _ _ _ => some "x") ["T", "S"]
        [[("T", some "A")]] [] false).1 ["T", "S"]
      (batch_process_parallel (fun _ _ _ _ => some "x") ["T", "S"]
        [[("T", some "A")]] [] false).2 =
      ((batch_process_parallel (fun _ _ _ _ => some "x") ["T", "S"]
        [[("T", some "A")]] [] false).2, false) ∧
    find_missing_cells ["T", "S"]
      (batch_process_parallel (fun _ _ _ _ => some "x") ["T", "S"]
        [[("T", some "A")]] [] false).1
      (batch_process_parallel (fun _ _ _ _ => some "x") ["T", "S"]
        [[("T", some "A")]] [] false).2 false = [] ∧
    batch_process_parallel (fun _ _ _ _ => some "x") ["T", "S"]
      (batch_process_parallel (fun _ _ _ _ => some "x") ["T", "S"]
        [[("T", some "A")]] [] false).1
      (batch_process_parallel (fun _ _ _ _ => some "x") ["T", "S"]
        [[("T", some "A")]] [] false).2 false =
      ((batch_process_parallel (fun _ _ _ _ => some "x") ["T", "S"]
        [[("T", some "A")]] [] false).1,
       (batch_process_parallel (fun _ _ _ _ => some "x") ["T", "S"]
        [[("T", some "A")]] [] false).2) :=
  claim_C5_second_run_noop (fun _ _ _ _ => some "x") ["T", "S"] [[("T", some "A")]] []
    false (fun _ _ => ⟨"x", rfl, by decide⟩)

/-- Counterexample to C7 as stated: the CSV-variant discovery mutates the
rows — a row shorter than the header list leaves the call padded in place. -/
theorem claim_C7_counterexample :
    (find_missing_cells_csv ["T", "S"] [["A"]] [] false).2 ≠ [["A"]] := by
  decide

/-- C7 as amended: the CSV-variant discovery's only mutation is padding
each row in place with empty strings up to the header count — rows already
at full width are left untouched, and no existing cell value is changed
(the JSON-variant discovery threads no state at all and is pure). -/
theorem claim_C7_padding_only (headers : List String) (rows : List (List String))
    (cp : Checkpoint) (b : Bool) (row : List String)
    (hw : headers.length ≤ row.length) (row2 : List String) (i2 : Nat)
    (hi : i2 < row2.length) :
    (find_missing_cells_csv headers rows cp b).2 = rows.map (padRow headers) ∧
    padRow headers row = row ∧
    (padRow headers row2).get? i2 = row2.get? i2 := by
  refine ⟨rfl, ?_, ?_⟩
  · rw [padRow, Nat.sub_eq_zero_of_le hw]
    simp
  · rw [padRow]
    exact List.get?_append hi

/-- Witness for the amended C7 at concrete rows. -/
theorem claim_C7_witness :
    (find_missing_cells_csv ["T", "S"] [["A"]] [] false).2 =
      [["A"]].map (padRow ["T", "S"]) ∧
    padRow ["T", "S"] ["x", "y", "z"] = ["x", "y", "z"] ∧
    (padRow ["T", "S"] ["A"]).get? 0 = ["A"].get? 0 :=
  claim_C7_padding_only ["T", "S"] [["A"]] [] false ["x", "y", "z"] (by decide)
    ["A"] 0 (by decide)
